import Mathlib

/-!
Shallow embedding of the `mem::Malloc<N>` allocator from
`src/include/malloc/malloc.hpp`.

Modelling conventions:
* Addresses are natural numbers (the `std::uintptr_t` view the source itself
  uses for its address comparisons).  The LP64 data model of the test platform
  fixes `sizeof(std::size_t) = 8`, `sizeof(MemBlock) = 16` (8-byte `size`
  plus 8-byte `next`) and `sizeof(MemBlockHeader) = 16` (4-byte `int magic`,
  4 bytes padding, 8-byte `size`).
* The region's bytes are a function `Nat → Nat` holding byte values; the
  multi-byte stores and loads the source performs through `MemBlockHeader`
  and the alignment-shim byte are modelled little-endian via `writeLE` /
  `readLE`.  `mmap(..., MAP_ANON | MAP_PRIVATE, ...)` zero-fills, hence the
  initial memory is the constant-zero function.
* Machine integers are natural numbers with the wraparound made explicit:
  every `std::size_t` sum or difference the source computes is reduced
  modulo `2 ^ 64` (`sizeTMod`, `sizeTSub`) at the spot where the source
  computes it — in particular `Alloc`'s `req_space` and `header->size`
  and `Free`'s `insert_block->size` wrap exactly as in the program.
* The free list is the sequence of `MemBlock` records reachable from `head_`,
  represented as a `List` of (address, size) pairs in link order.  The link
  fields themselves live inside free spans, so the list view is exact as long
  as the allocator's header, shim and node-record stores stay inside the span
  they belong to.  A request whose `req_space` wraps makes the source's
  header store smash the embedded record of a live free node (the list itself
  becomes untracked garbage in the program); the multi-step theorems below
  therefore carry a no-overflow hypothesis on each request, while the
  single-call results (return value, error discipline, returned pointer) need
  none because the source computes them before any such smash is read back.
  `Free` writes the reconstructed node record (`insert_block->size`,
  `insert_block->next`) into the byte memory because those stores overlap the
  allocated-block header that `Free` just consumed.
* A C++ call that throws leaves the object unchanged; each operation therefore
  returns the `Except` outcome paired with the resulting object state.
-/

namespace MallocSpec

/-- Byte footprint of `mem::Malloc<N>::MemBlock` on LP64 (malloc.hpp:37-40). -/
def memBlockSize : Nat := 16

/-- Byte footprint of `mem::Malloc<N>::MemBlockHeader` on LP64 (malloc.hpp:42-45). -/
def headerSize : Nat := 16

/-- `kMemMagicNum = 0xDEADBEEF` (malloc.hpp:35). -/
def kMemMagicNum : Nat := 0xDEADBEEF

/-- The OS page size the constructor obtains from `::getpagesize()` is a
parameter of the model; the spec's scenarios instantiate it with 4096. -/
def kDefaultPageSize : Nat := 4096

/-- The modulus of `std::size_t` arithmetic on the LP64 target: `2 ^ 64`.
All `size_t` sums and differences the source computes wrap modulo this
value, and the model applies the reduction at exactly those spots. -/
def sizeTMod : Nat := 2 ^ 64

/-- The value of the `std::size_t` difference `x - y` for 64-bit operands:
two's-complement wraparound, `(x - y) mod 2 ^ 64`. -/
def sizeTSub (x y : Nat) : Nat := (x % sizeTMod + sizeTMod - y % sizeTMod) % sizeTMod

/-- A free-list node: the address the `MemBlock` record lives at and its
`size` field (total bytes of the free span, record included). -/
structure MemBlock where
  addr : Nat
  size : Nat
deriving DecidableEq, Repr

/-- Read `w` bytes little-endian starting at address `a`. -/
def readLE (mem : Nat → Nat) : Nat → Nat → Nat
  | _, 0 => 0
  | a, w + 1 => mem a + 256 * readLE mem (a + 1) w

/-- Store the low `w` bytes of `v` little-endian starting at address `a`
(arguments: memory, address, width, value). -/
def writeLE : (Nat → Nat) → Nat → Nat → Nat → (Nat → Nat)
  | mem, _, 0, _ => mem
  | mem, a, w + 1, v =>
    writeLE (fun b => if b = a then v % 256 else mem b) (a + 1) w (v / 256)

/-- `Malloc<N>::IsPowerOfTwo` (malloc.hpp:47): `n && (!(n & (n - 1)))`. -/
def IsPowerOfTwo (n : Nat) : Bool := n != 0 && (n &&& (n - 1)) == 0

/-- `Malloc<N>::InsertFreeMemBlock` (malloc.hpp:58-83): walk the list and
splice `block` in before the first node whose address is at or past
`block`'s end; append at the tail when the walk falls off the list. -/
def InsertFreeMemBlock (block : MemBlock) : List MemBlock → List MemBlock
  | [] => [block]
  | curr :: rest =>
    if block.addr + block.size ≤ curr.addr then block :: curr :: rest
    else curr :: InsertFreeMemBlock block rest

/-- Loop body of `Malloc<N>::MergeFreeBlocks` (malloc.hpp:90-102) with the
cursor resting on `curr`: absorb `curr->next` while it is physically
adjacent, otherwise emit `curr` and advance. -/
def mergeLoop (curr : MemBlock) : List MemBlock → List MemBlock
  | [] => [curr]
  | next :: rest =>
    if curr.addr + curr.size = next.addr then
      mergeLoop ⟨curr.addr, curr.size + next.size⟩ rest
    else curr :: mergeLoop next rest

/-- `Malloc<N>::MergeFreeBlocks` (malloc.hpp:87-103), including the
`if (!head_) return;` guard of line 88. -/
def MergeFreeBlocks : List MemBlock → List MemBlock
  | [] => []
  | curr :: rest => mergeLoop curr rest

/-- The exception kinds `Malloc` raises: `std::invalid_argument` from `Alloc`
and `std::runtime_error` from `Free` and the constructor. -/
inductive MError where
  | invalidArgument (msg : String)
  | runtimeError (msg : String)
deriving DecidableEq, Repr

instance {ε α : Type} [DecidableEq ε] [DecidableEq α] : DecidableEq (Except ε α) :=
  fun a b =>
    match a, b with
    | .error e, .error e' =>
      if h : e = e' then .isTrue (by rw [h]) else .isFalse (by simp [h])
    | .ok x, .ok y =>
      if h : x = y then .isTrue (by rw [h]) else .isFalse (by simp [h])
    | .error _, .ok _ => .isFalse (fun h => nomatch h)
    | .ok _, .error _ => .isFalse (fun h => nomatch h)

/-- The data members of `mem::Malloc<N>` (malloc.hpp:51-53) together with the
mapped region's byte contents. -/
structure Malloc where
  region_size : Nat
  mmap_start : Nat
  freeList : List MemBlock
  mem : Nat → Nat

/-- `Malloc<N>::RegionSize` (malloc.hpp:29). -/
def Malloc.RegionSize (m : Malloc) : Nat := m.region_size

/-- `p` rounded up to the next multiple of `a` (what `std::align` computes). -/
def alignUp (p a : Nat) : Nat := ((p + a - 1) / a) * a

/-- `std::align(alignment, size, ptr, space)`: on success return the aligned
pointer together with the decreased `space`; fail when the aligned payload
does not fit. -/
def stdAlign (alignment size p space : Nat) : Option (Nat × Nat) :=
  let aligned := alignUp p alignment
  if aligned + size ≤ p + space then some (aligned, space - (aligned - p))
  else none

/-- First-fit search and splice of `Malloc<N>::Alloc` (malloc.hpp:178-206):
find the first node with `size ≥ req`, replace it by the residual node at
`addr + req` when it is strictly larger, drop it entirely otherwise.
Returns the chosen node's address and the updated free list. -/
def splitFirstFit (req : Nat) : List MemBlock → Option (Nat × List MemBlock)
  | [] => none
  | curr :: rest =>
    if req ≤ curr.size then
      if req < curr.size then
        some (curr.addr, ⟨curr.addr + req, curr.size - req⟩ :: rest)
      else some (curr.addr, rest)
    else
      match splitFirstFit req rest with
      | none => none
      | some (addr, rest') => some (addr, curr :: rest')

/-- `Malloc<N>::Alloc` (malloc.hpp:166-230).  The second component of the
result is the object state after the call (unchanged when the call throws
or returns `nullptr`).  `req_space = size + sizeof(MemBlock) + alignment + 1`
is a `std::size_t` sum and wraps modulo `2 ^ 64`; the derived quantities
`header->size = req_space - sizeof(MemBlockHeader)` and
`total_space = header->size - 1` and the aligner's size argument
`total_space - alignment` are `std::size_t` differences and wrap the same
way (`sizeTSub`).  `skipped = total_space_copy - total_space` never wraps
because `std::align` only ever decreases the space it is handed. -/
def Malloc.Alloc (m : Malloc) (size alignment : Nat) :
    Except MError (Option Nat) × Malloc :=
  if size = 0 then
    (.error (.invalidArgument "size must be a positive integer"), m)
  else if alignment = 0 ∨ IsPowerOfTwo alignment = false then
    (.error (.invalidArgument "alignment must be a power of 2"), m)
  else
    let req_space := (size + memBlockSize + alignment + 1) % sizeTMod
    match splitFirstFit req_space m.freeList with
    | none => (.ok none, m)
    | some (addr, freeList') =>
      let hsize := sizeTSub req_space headerSize
      let mem1 := writeLE m.mem addr 4 kMemMagicNum
      let mem2 := writeLE mem1 (addr + 8) 8 hsize
      let user0 := addr + headerSize + 1
      let total_space := sizeTSub hsize 1
      match stdAlign alignment (sizeTSub total_space alignment) user0 total_space with
      | none => (.ok none, m)
      | some (user_ptr, space') =>
        let skipped := total_space - space'
        let mem3 := writeLE mem2 (user_ptr - 1) 1 skipped
        (.ok (some user_ptr), { m with freeList := freeList', mem := mem3 })

/-- `Malloc<N>::Free` (malloc.hpp:234-255).  The node record stores
(`insert_block->size` at the header address, `insert_block->next = nullptr`
at offset 8) are written into the byte memory because they overlap the
consumed header; the node itself joins the abstract free list.
`insert_block->size = header->size + sizeof(MemBlockHeader)` is a
`std::size_t` sum and wraps modulo `2 ^ 64`. -/
def Malloc.Free (m : Malloc) (p : Nat) : Except MError Unit × Malloc :=
  if p = 0 then (.error (.runtimeError "cannot free NULL mem block"), m)
  else
    let cnt := readLE m.mem (p - 1) 1
    let h := p - 1 - cnt - headerSize
    if readLE m.mem h 4 ≠ kMemMagicNum then
      (.error (.runtimeError "invalid mem block magic number"), m)
    else
      let hsize := readLE m.mem (h + 8) 8
      let nodeSize := (hsize + headerSize) % sizeTMod
      let mem1 := writeLE m.mem h 8 nodeSize
      let mem2 := writeLE mem1 (h + 8) 8 0
      (.ok (),
        { m with
          freeList := MergeFreeBlocks (InsertFreeMemBlock ⟨h, nodeSize⟩ m.freeList)
          mem := mem2 })

/-- Page rounding of the constructor (malloc.hpp:108-111). -/
def roundRegion (pageSize n : Nat) : Nat :=
  if n % pageSize = 0 then n else (n / pageSize) * pageSize + pageSize

/-- `MAP_FAILED`, the value `mmap` actually returns on failure: `(void*)-1`. -/
def MAP_FAILED : Nat := 2 ^ 64 - 1

/-- The constructor `Malloc<N>::Malloc` (malloc.hpp:107-123), parameterised
by the value `mmap` returned.  The source checks `if (!head_)`, i.e. compares
the returned pointer against `nullptr` (address 0), and otherwise seeds the
free list with the single node at the region base. -/
def Malloc.construct (pageSize n mmapRet : Nat) : Except MError Malloc :=
  let rsz := roundRegion pageSize n
  if mmapRet = 0 then .error (.runtimeError "mmap failed")
  else
    .ok { region_size := rsz, mmap_start := mmapRet
          freeList := [⟨mmapRet, rsz - memBlockSize⟩], mem := fun _ => 0 }

/-- The state produced by a successful construction whose `mmap` returned
`base`: the success branch of `Malloc.construct`. -/
def Malloc.init (pageSize n base : Nat) : Malloc :=
  { region_size := roundRegion pageSize n, mmap_start := base
    freeList := [⟨base, roundRegion pageSize n - memBlockSize⟩]
    mem := fun _ => 0 }

/-- Run a sequence of `Alloc` calls, requiring every one of them to succeed
with a non-null pointer; collect the returned pointers in call order. -/
def runAllocs : Malloc → List (Nat × Nat) → Option (Malloc × List Nat)
  | m, [] => some (m, [])
  | m, (s, a) :: rest =>
    match Malloc.Alloc m s a with
    | (.ok (some p), m') =>
      match runAllocs m' rest with
      | some (m2, ps) => some (m2, p :: ps)
      | none => none
    | _ => none

/-- Run a sequence of `Free` calls, requiring every one of them to succeed. -/
def runFrees : Malloc → List Nat → Option Malloc
  | m, [] => some m
  | m, p :: rest =>
    match Malloc.Free m p with
    | (.ok _, m') => runFrees m' rest
    | _ => none

/-- The three data members of `mem::Malloc<N>` as raw words, for the move
operations (`head` is the raw `head_` pointer value). -/
structure RawMalloc where
  region_size : Nat
  mmap_start : Nat
  head : Nat
deriving DecidableEq, Repr

/-- Move assignment `Malloc<N>::operator=(Malloc&&)` (malloc.hpp:146-162) for
distinct objects (`this != &rhs`): the target takes the source's fields, the
source is zeroed, and nothing is unmapped. -/
def moveAssign (_self rhs : RawMalloc) : RawMalloc × RawMalloc :=
  (⟨rhs.region_size, rhs.mmap_start, rhs.head⟩, ⟨0, 0, 0⟩)

/-- The destructor `Malloc<N>::~Malloc` (malloc.hpp:127-133): the single
`munmap` call it performs, if any — `munmap(mmap_start_, region_size_)`
guarded by `if (mmap_start_)`. -/
def destructorUnmaps (m : RawMalloc) : Option (Nat × Nat) :=
  if m.mmap_start ≠ 0 then some (m.mmap_start, m.region_size) else none

/-! ### Byte-memory access lemmas -/

theorem writeLE_apply_ne : ∀ (w : Nat) (mem : Nat → Nat) (a v b : Nat),
    b < a ∨ a + w ≤ b → writeLE mem a w v b = mem b := by
  intro w
  induction w with
  | zero => intro mem a v b _; rfl
  | succ w ih =>
    intro mem a v b hb
    show writeLE (fun b => if b = a then v % 256 else mem b) (a + 1) w (v / 256) b = mem b
    rw [ih _ (a + 1) _ b (by omega)]
    exact if_neg (by omega)

theorem readLE_congr : ∀ (w : Nat) (m1 m2 : Nat → Nat) (a : Nat),
    (∀ b, a ≤ b → b < a + w → m1 b = m2 b) → readLE m1 a w = readLE m2 a w := by
  intro w
  induction w with
  | zero => intro m1 m2 a _; rfl
  | succ w ih =>
    intro m1 m2 a h
    show m1 a + 256 * readLE m1 (a + 1) w = m2 a + 256 * readLE m2 (a + 1) w
    rw [h a (by omega) (by omega), ih m1 m2 (a + 1) (fun b h1 h2 => h b (by omega) (by omega))]

theorem mod_mul_decomp (b c v : Nat) : v % b + b * (v / b % c) = v % (b * c) := by
  rcases Nat.eq_zero_or_pos c with hc | hc
  · subst hc
    rw [Nat.mul_zero, Nat.mod_zero, Nat.mod_zero]
    exact Nat.mod_add_div v b
  · rw [← Nat.mod_mul_right_mod v b c, ← Nat.mod_mul_right_div_self v b c]
    exact Nat.mod_add_div _ _

theorem readLE_writeLE : ∀ (w : Nat) (mem : Nat → Nat) (a v : Nat),
    readLE (writeLE mem a w v) a w = v % 256 ^ w := by
  intro w
  induction w with
  | zero => intro mem a v; simp [readLE, Nat.mod_one]
  | succ w ih =>
    intro mem a v
    show readLE (writeLE (fun b => if b = a then v % 256 else mem b) (a + 1) w (v / 256)) a (w + 1)
      = v % 256 ^ (w + 1)
    rw [show readLE (writeLE (fun b => if b = a then v % 256 else mem b) (a + 1) w (v / 256)) a (w + 1)
        = writeLE (fun b => if b = a then v % 256 else mem b) (a + 1) w (v / 256) a
          + 256 * readLE (writeLE (fun b => if b = a then v % 256 else mem b) (a + 1) w (v / 256)) (a + 1) w from rfl]
    rw [writeLE_apply_ne w _ _ _ a (by omega), if_pos rfl, ih]
    rw [pow_succ, Nat.mul_comm (256 ^ w) 256]
    exact mod_mul_decomp 256 (256 ^ w) v

theorem readLE_writeLE_out (w w' : Nat) (mem : Nat → Nat) (a a' v : Nat)
    (h : a' + w' ≤ a ∨ a + w ≤ a') : readLE (writeLE mem a' w' v) a w = readLE mem a w := by
  refine readLE_congr w _ _ a fun b h1 h2 => ?_
  exact writeLE_apply_ne w' mem a' v b (by omega)

/-! ### C8: page rounding -/

theorem roundRegion_mod (P n : Nat) (_hP : 0 < P) : roundRegion P n % P = 0 := by
  unfold roundRegion
  split
  · assumption
  · rw [show n / P * P + P = (n / P + 1) * P by ring, Nat.mul_mod_left]

theorem roundRegion_ge (P n : Nat) (hP : 0 < P) : n ≤ roundRegion P n := by
  unfold roundRegion
  split
  · exact Nat.le_refl n
  · have h1 := Nat.div_add_mod' n P
    have h2 := Nat.mod_lt n hP
    omega

theorem roundRegion_min (P n m : Nat) (hP : 0 < P) (hm : m % P = 0) (hnm : n ≤ m) :
    roundRegion P n ≤ m := by
  unfold roundRegion
  split
  · exact hnm
  · rename_i hne
    have hq : n / P < m / P := by
      rcases Nat.lt_or_ge (n / P) (m / P) with h | h
      · exact h
      · exfalso
        have hm' : m = P * (m / P) := by
          have := Nat.div_add_mod m P
          omega
        have h1 : P * (m / P) ≤ P * (n / P) := Nat.mul_le_mul_left P h
        have h2 : P * (n / P) ≤ n := Nat.mul_div_le n P
        have := Nat.div_add_mod n P
        omega
    calc n / P * P + P = (n / P + 1) * P := by ring
      _ ≤ m / P * P := Nat.mul_le_mul_right P hq
      _ ≤ m := Nat.div_mul_le_self m P

/-- C8: for all `N > 0` and positive page size `P`, `RegionSize()` after
construction is the smallest multiple of `P` that is `≥ N` (and `N` itself
when `N` is already a multiple). -/
theorem c8_region_size (P n base : Nat) (hP : 0 < P) (_hn : 0 < n) :
    (Malloc.init P n base).RegionSize % P = 0 ∧
    n ≤ (Malloc.init P n base).RegionSize ∧
    (∀ m, m % P = 0 → n ≤ m → (Malloc.init P n base).RegionSize ≤ m) ∧
    (n % P = 0 → (Malloc.init P n base).RegionSize = n) := by
  refine ⟨roundRegion_mod P n hP, roundRegion_ge P n hP,
    fun m hm hnm => roundRegion_min P n m hP hm hnm, fun h => ?_⟩
  show roundRegion P n = n
  unfold roundRegion
  simp [h]

/-- Witness for `c8_region_size` at `P = 4096`, `N = 4097`. -/
theorem c8_region_size_witness :
    (Malloc.init 4096 4097 65536).RegionSize % 4096 = 0 ∧
    4097 ≤ (Malloc.init 4096 4097 65536).RegionSize ∧
    (∀ m, m % 4096 = 0 → 4097 ≤ m → (Malloc.init 4096 4097 65536).RegionSize ≤ m) ∧
    (4097 % 4096 = 0 → (Malloc.init 4096 4097 65536).RegionSize = 4097) :=
  c8_region_size 4096 4097 65536 (by decide) (by decide)

/-! ### C9: merging an empty free list is a no-op -/

/-- C9: `MergeFreeBlocks` on an allocator whose free list is empty terminates
normally (it is a total function here) and leaves the allocator unchanged —
the `if (!head_) return;` guard of malloc.hpp:88. -/
theorem c9_merge_empty (m : Malloc) (h : m.freeList = []) :
    MergeFreeBlocks m.freeList = [] ∧
    { m with freeList := MergeFreeBlocks m.freeList } = m := by
  refine ⟨by rw [h]; rfl, ?_⟩
  rw [h]
  show { m with freeList := ([] : List MemBlock) } = m
  rw [← h]

/-- Witness for `c9_merge_empty` on a concrete empty-free-list state. -/
theorem c9_merge_empty_witness :
    MergeFreeBlocks (Malloc.mk 4096 65536 [] (fun _ => 0)).freeList = [] ∧
    { Malloc.mk 4096 65536 [] (fun _ => 0) with
        freeList := MergeFreeBlocks (Malloc.mk 4096 65536 [] (fun _ => 0)).freeList }
      = Malloc.mk 4096 65536 [] (fun _ => 0) :=
  c9_merge_empty (Malloc.mk 4096 65536 [] (fun _ => 0)) rfl

/-! ### C10: move assignment leaks the target's previous mapping -/

/-- C10: move assignment onto an allocator that still holds a region
overwrites the target's fields with the source's values, zeroes the source,
and neither resulting object's destructor ever unmaps the target's previous
region — `operator=` (malloc.hpp:146-162) performs no `munmap`, and the
destructor (127-133) unmaps only `mmap_start_`, which now holds the
source's mapping.  The target's prior mapping is therefore leaked. -/
theorem c10_move_assign_leak (t s : RawMalloc) (_ht : t.mmap_start ≠ 0)
    (hts : t.mmap_start ≠ s.mmap_start) :
    (moveAssign t s).1 = ⟨s.region_size, s.mmap_start, s.head⟩ ∧
    (moveAssign t s).2 = ⟨0, 0, 0⟩ ∧
    destructorUnmaps (moveAssign t s).1 = destructorUnmaps s ∧
    destructorUnmaps (moveAssign t s).2 = none ∧
    (∀ sz, destructorUnmaps (moveAssign t s).1 ≠ some (t.mmap_start, sz)) ∧
    (∀ sz, destructorUnmaps (moveAssign t s).2 ≠ some (t.mmap_start, sz)) := by
  refine ⟨rfl, rfl, rfl, rfl, fun sz h => ?_, fun sz h => ?_⟩
  · simp only [moveAssign, destructorUnmaps] at h
    split at h
    · exact hts (Prod.mk.inj (Option.some.inj h)).1.symm
    · exact Option.noConfusion h
  · simp [moveAssign, destructorUnmaps] at h

/-- Witness for `c10_move_assign_leak` on two concrete allocators. -/
theorem c10_move_assign_leak_witness :
    (moveAssign ⟨4096, 65536, 65536⟩ ⟨8192, 131072, 131072⟩).1 = ⟨8192, 131072, 131072⟩ ∧
    (moveAssign ⟨4096, 65536, 65536⟩ ⟨8192, 131072, 131072⟩).2 = ⟨0, 0, 0⟩ ∧
    destructorUnmaps (moveAssign ⟨4096, 65536, 65536⟩ ⟨8192, 131072, 131072⟩).1
      = destructorUnmaps ⟨8192, 131072, 131072⟩ ∧
    destructorUnmaps (moveAssign ⟨4096, 65536, 65536⟩ ⟨8192, 131072, 131072⟩).2 = none ∧
    (∀ sz, destructorUnmaps (moveAssign ⟨4096, 65536, 65536⟩ ⟨8192, 131072, 131072⟩).1
      ≠ some (65536, sz)) ∧
    (∀ sz, destructorUnmaps (moveAssign ⟨4096, 65536, 65536⟩ ⟨8192, 131072, 131072⟩).2
      ≠ some (65536, sz)) :=
  c10_move_assign_leak ⟨4096, 65536, 65536⟩ ⟨8192, 131072, 131072⟩ (by decide) (by decide)

/-! ### C7: the constructor's failure check tests the wrong sentinel -/

/-- C7 (code bug): when the OS refuses the mapping, `mmap` returns
`MAP_FAILED = (void*)-1`, not `nullptr`; the constructor's `if (!head_)`
check (malloc.hpp:116) therefore does not fire, no error is signalled, and
construction proceeds to seed the free list at the invalid address
`MAP_FAILED` (in the real program, writing `head_->size` through that
pointer).  The claimed `ResourceAcquisitionFailed` error is never raised. -/
theorem c7_mmap_failed_not_detected :
    (Malloc.construct 4096 4096 MAP_FAILED).isOk = true ∧
    (Malloc.construct 4096 4096 MAP_FAILED).toOption.map Malloc.mmap_start
      = some MAP_FAILED ∧
    (Malloc.construct 4096 4096 MAP_FAILED).toOption.map Malloc.freeList
      = some [⟨MAP_FAILED, 4096 - memBlockSize⟩] := by
  refine ⟨?_, ?_, ?_⟩ <;> decide

/-! ### Alignment arithmetic -/

theorem alignUp_ge (p a : Nat) (ha : 0 < a) : p ≤ alignUp p a := by
  unfold alignUp
  have h1 := Nat.div_add_mod' (p + a - 1) a
  have h2 := Nat.mod_lt (p + a - 1) ha
  generalize (p + a - 1) / a * a = s at h1
  omega

theorem alignUp_lt (p a : Nat) (ha : 0 < a) : alignUp p a < p + a := by
  unfold alignUp
  have h1 := Nat.div_add_mod' (p + a - 1) a
  generalize (p + a - 1) / a * a = s at h1
  omega

theorem alignUp_mod (p a : Nat) : alignUp p a % a = 0 := by
  unfold alignUp
  exact Nat.mul_mod_left _ _

/-- In the context `Alloc` calls it (`size` worth of payload, `size + alignment`
worth of space), `std::align` always succeeds and returns the rounded-up
pointer; the failure branch is dead code. -/
theorem stdAlign_alloc (alignment size p : Nat) (ha : 0 < alignment) :
    stdAlign alignment size p (size + alignment)
      = some (alignUp p alignment, size + alignment - (alignUp p alignment - p)) := by
  unfold stdAlign
  have h1 := alignUp_lt p alignment ha
  have h2 := alignUp_ge p alignment ha
  rw [if_pos (by omega)]

/-! ### First-fit characterization -/

theorem splitFirstFit_none_iff (req : Nat) :
    ∀ l : List MemBlock, splitFirstFit req l = none ↔ ∀ b ∈ l, b.size < req := by
  intro l
  induction l with
  | nil => simp [splitFirstFit]
  | cons c t ih =>
    rw [splitFirstFit]
    by_cases h1 : req ≤ c.size
    · rw [if_pos h1]
      by_cases h2 : req < c.size
      · rw [if_pos h2]
        simp only [List.mem_cons]
        constructor
        · intro h; exact Option.noConfusion h
        · intro h; exact absurd (h c (Or.inl rfl)) (by omega)
      · rw [if_neg h2]
        simp only [List.mem_cons]
        constructor
        · intro h; exact Option.noConfusion h
        · intro h; exact absurd (h c (Or.inl rfl)) (by omega)
    · rw [if_neg h1]
      cases hsp : splitFirstFit req t with
      | none =>
        simp only [List.mem_cons]
        constructor
        · intro _ b hb
          rcases hb with hb | hb
          · subst hb; omega
          · exact (ih.mp hsp) b hb
        · intro _; trivial
      | some pr =>
        obtain ⟨a0, t'⟩ := pr
        simp only [List.mem_cons]
        constructor
        · intro h; exact Option.noConfusion h
        · intro h
          have : splitFirstFit req t = none := ih.mpr (fun b hb => h b (Or.inr hb))
          rw [this] at hsp
          exact Option.noConfusion hsp

theorem splitFirstFit_some (req : Nat) :
    ∀ (l : List MemBlock) (a : Nat) (l' : List MemBlock),
    splitFirstFit req l = some (a, l') →
    ∃ pre b post, l = pre ++ b :: post ∧ (∀ c ∈ pre, c.size < req) ∧ req ≤ b.size ∧
      a = b.addr ∧
      l' = pre ++ (if req < b.size then (⟨b.addr + req, b.size - req⟩ : MemBlock) :: post
                   else post) := by
  intro l
  induction l with
  | nil => intro a l' h; exact Option.noConfusion h
  | cons c t ih =>
    intro a l' h
    rw [splitFirstFit] at h
    by_cases h1 : req ≤ c.size
    · rw [if_pos h1] at h
      by_cases h2 : req < c.size
      · rw [if_pos h2] at h
        obtain ⟨ha, hl⟩ := Prod.mk.inj (Option.some.inj h)
        exact ⟨[], c, t, rfl, by simp, h1, ha.symm, by rw [if_pos h2]; simpa using hl.symm⟩
      · rw [if_neg h2] at h
        obtain ⟨ha, hl⟩ := Prod.mk.inj (Option.some.inj h)
        exact ⟨[], c, t, rfl, by simp, h1, ha.symm, by rw [if_neg h2]; simpa using hl.symm⟩
    · rw [if_neg h1] at h
      cases hsp : splitFirstFit req t with
      | none => rw [hsp] at h; exact Option.noConfusion h
      | some pr =>
        obtain ⟨a0, t'⟩ := pr
        rw [hsp] at h
        obtain ⟨ha, hl⟩ := Prod.mk.inj (Option.some.inj h)
        obtain ⟨pre, b, post, hsplit, hpre, hb, ha0, ht'⟩ := ih a0 t' hsp
        refine ⟨c :: pre, b, post, by rw [hsplit]; rfl, ?_, hb, by rw [← ha]; exact ha0, ?_⟩
        · intro x hx
          rcases List.mem_cons.mp hx with hx | hx
          · subst hx; omega
          · exact hpre x hx
        · rw [← hl, ht']; rfl

/-! ### size_t arithmetic facts -/

/-- `sizeTSub` computes the plain difference whenever the minuend is a
`size_t` value at least as large as the subtrahend. -/
theorem sizeTSub_of_le (x y : Nat) (hx : x < sizeTMod) (hy : y ≤ x) :
    sizeTSub x y = x - y := by
  unfold sizeTSub
  rw [Nat.mod_eq_of_lt hx, Nat.mod_eq_of_lt (Nat.lt_of_le_of_lt hy hx)]
  rw [show x + sizeTMod - y = x - y + sizeTMod from by omega, Nat.add_mod_right]
  exact Nat.mod_eq_of_lt (Nat.lt_of_le_of_lt (Nat.sub_le x y) hx)

/-- When `req_space = size + sizeof(MemBlock) + alignment + 1` does not
overflow `std::size_t`, the wrapped quantities `Alloc` computes coincide
with the plain ones. -/
theorem alloc_arith_noWrap (size alignment : Nat) (_hs : size ≠ 0) (_hapos : 0 < alignment)
    (hnw : size + memBlockSize + alignment + 1 < sizeTMod) :
    (size + memBlockSize + alignment + 1) % sizeTMod = size + memBlockSize + alignment + 1 ∧
    sizeTSub ((size + memBlockSize + alignment + 1) % sizeTMod) headerSize
      = size + alignment + 1 ∧
    sizeTSub (size + alignment + 1) 1 = size + alignment ∧
    sizeTSub (size + alignment) alignment = size := by
  have hhs : headerSize = 16 := rfl
  have hmb : memBlockSize = 16 := rfl
  have e0 : (size + memBlockSize + alignment + 1) % sizeTMod
      = size + memBlockSize + alignment + 1 := Nat.mod_eq_of_lt hnw
  refine ⟨e0, ?_, ?_, ?_⟩
  · rw [e0, sizeTSub_of_le _ _ hnw (by omega)]
    omega
  · rw [sizeTSub_of_le _ _ (by omega) (by omega)]
    omega
  · rw [sizeTSub_of_le _ _ (by omega) (by omega)]
    omega

/-! ### A single unfolding of a successful `Alloc` -/

/-- What a successful `std::align` call reveals: the returned pointer is the
round-up of the input pointer, the output space is decreased by exactly the
skipped padding, and the aligned payload fits. -/
theorem stdAlign_some {alignment size p space u sp' : Nat}
    (h : stdAlign alignment size p space = some (u, sp')) :
    u = alignUp p alignment ∧ sp' = space - (u - p) ∧ u + size ≤ p + space := by
  simp only [stdAlign] at h
  split at h
  · next hc =>
    obtain ⟨h1, h2⟩ := Prod.mk.inj (Option.some.inj h)
    subst h1
    exact ⟨rfl, h2.symm, hc⟩
  · exact Option.noConfusion h

/-- With non-overflowing request arithmetic, the aligner call of `Alloc`
reduces to `std::align(alignment, size, addr + 17, size + alignment)` and
always succeeds: the failure branch of malloc.hpp:221-222 is dead unless
`req_space` wraps. -/
theorem stdAlign_raw (alignment size addr : Nat) (hs : size ≠ 0) (hapos : 0 < alignment)
    (hnw : size + memBlockSize + alignment + 1 < sizeTMod) :
    stdAlign alignment
        (sizeTSub (sizeTSub (sizeTSub ((size + memBlockSize + alignment + 1) % sizeTMod)
          headerSize) 1) alignment)
        (addr + headerSize + 1)
        (sizeTSub (sizeTSub ((size + memBlockSize + alignment + 1) % sizeTMod) headerSize) 1)
    = some (alignUp (addr + headerSize + 1) alignment,
        size + alignment
          - (alignUp (addr + headerSize + 1) alignment - (addr + headerSize + 1))) := by
  obtain ⟨e0, e1, e2, e3⟩ := alloc_arith_noWrap size alignment hs hapos hnw
  rw [e1, e2, e3, stdAlign_alloc alignment size _ hapos]

/-- The state a successful `Alloc` produces, in the source's raw (wrapped)
arithmetic: header magic and size stores at the consumed node's address,
then the alignment-shim byte just before the aligned user pointer. -/
def allocResultState (m : Malloc) (size alignment addr user_ptr space' : Nat)
    (fl' : List MemBlock) : Malloc :=
  { m with
    freeList := fl'
    mem := writeLE
      (writeLE (writeLE m.mem addr 4 kMemMagicNum) (addr + 8) 8
        (sizeTSub ((size + memBlockSize + alignment + 1) % sizeTMod) headerSize))
      (user_ptr - 1) 1
      (sizeTSub (sizeTSub ((size + memBlockSize + alignment + 1) % sizeTMod) headerSize) 1
        - space') }

/-- Evaluating `Alloc` when the first-fit search (on the wrapped `req_space`)
fails: null return, no error, state unchanged. -/
theorem Alloc_eq_noFit (m : Malloc) (size alignment : Nat) (hs : ¬size = 0)
    (hnot : ¬(alignment = 0 ∨ IsPowerOfTwo alignment = false))
    (hsp : splitFirstFit ((size + memBlockSize + alignment + 1) % sizeTMod) m.freeList
      = none) :
    Malloc.Alloc m size alignment = (.ok none, m) := by
  simp only [Malloc.Alloc]
  rw [if_neg hs, if_neg hnot]
  split
  · rfl
  · rename_i addr fl' heq
    rw [hsp] at heq
    exact Option.noConfusion heq

/-- Evaluating `Alloc` when a node is found but the aligner fails — reachable
only when `req_space` wrapped; the source then stores the shim byte through
`(uint8_t*)nullptr - 1`, which is undefined behavior, and would return
`nullptr`.  No theorem below relies on this branch's resulting state. -/
theorem Alloc_eq_alignFail (m : Malloc) (size alignment addr : Nat) (fl' : List MemBlock)
    (hs : ¬size = 0) (hnot : ¬(alignment = 0 ∨ IsPowerOfTwo alignment = false))
    (hsp : splitFirstFit ((size + memBlockSize + alignment + 1) % sizeTMod) m.freeList
      = some (addr, fl'))
    (hal : stdAlign alignment
        (sizeTSub (sizeTSub (sizeTSub ((size + memBlockSize + alignment + 1) % sizeTMod)
          headerSize) 1) alignment)
        (addr + headerSize + 1)
        (sizeTSub (sizeTSub ((size + memBlockSize + alignment + 1) % sizeTMod) headerSize) 1)
      = none) :
    Malloc.Alloc m size alignment = (.ok none, m) := by
  simp only [Malloc.Alloc]
  rw [if_neg hs, if_neg hnot]
  split
  · rfl
  · rename_i addr' fl'' heq
    rw [hsp] at heq
    obtain ⟨h1, h2⟩ := Prod.mk.inj (Option.some.inj heq)
    subst h1
    subst h2
    split
    · rfl
    · rename_i user_ptr space' heq2
      rw [hal] at heq2
      exact Option.noConfusion heq2

/-- Evaluating `Alloc` when the first-fit search finds a node and the aligner
succeeds, in the source's raw (wrapped) arithmetic. -/
theorem Alloc_eq_fit (m : Malloc) (size alignment addr user_ptr space' : Nat)
    (fl' : List MemBlock)
    (hs : ¬size = 0) (hnot : ¬(alignment = 0 ∨ IsPowerOfTwo alignment = false))
    (hsp : splitFirstFit ((size + memBlockSize + alignment + 1) % sizeTMod) m.freeList
      = some (addr, fl'))
    (hal : stdAlign alignment
        (sizeTSub (sizeTSub (sizeTSub ((size + memBlockSize + alignment + 1) % sizeTMod)
          headerSize) 1) alignment)
        (addr + headerSize + 1)
        (sizeTSub (sizeTSub ((size + memBlockSize + alignment + 1) % sizeTMod) headerSize) 1)
      = some (user_ptr, space')) :
    Malloc.Alloc m size alignment
      = (.ok (some user_ptr),
         allocResultState m size alignment addr user_ptr space' fl') := by
  simp only [Malloc.Alloc]
  rw [if_neg hs, if_neg hnot]
  split
  · rename_i heq
    rw [hsp] at heq
    exact Option.noConfusion heq
  · rename_i addr' fl'' heq
    rw [hsp] at heq
    obtain ⟨h1, h2⟩ := Prod.mk.inj (Option.some.inj heq)
    subst h1
    subst h2
    split
    · rename_i heq2
      rw [hal] at heq2
      exact Option.noConfusion heq2
    · rename_i u sp2 heq2
      rw [hal] at heq2
      obtain ⟨hu, hsp2⟩ := Prod.mk.inj (Option.some.inj heq2)
      subst hu
      subst hsp2
      rfl

/-- The complete effect of a successful `Alloc` call, at every input
including requests whose `req_space` wraps: which free node was consumed,
what the returned pointer is, and the exact state produced.  The skipped
padding stored in the shim byte is `p - (b.addr + headerSize + 1)` in all
cases because `std::align` decreases the space by exactly that amount. -/
theorem Alloc_some_spec (m : Malloc) (size alignment p : Nat)
    (h : (Malloc.Alloc m size alignment).1 = .ok (some p)) :
    size ≠ 0 ∧ IsPowerOfTwo alignment = true ∧
    ∃ pre b post,
      m.freeList = pre ++ b :: post ∧
      (∀ c ∈ pre, c.size < (size + memBlockSize + alignment + 1) % sizeTMod) ∧
      (size + memBlockSize + alignment + 1) % sizeTMod ≤ b.size ∧
      p = alignUp (b.addr + headerSize + 1) alignment ∧
      (Malloc.Alloc m size alignment).2 =
        { m with
          freeList := pre ++
            (if (size + memBlockSize + alignment + 1) % sizeTMod < b.size then
              (⟨b.addr + (size + memBlockSize + alignment + 1) % sizeTMod,
                b.size - (size + memBlockSize + alignment + 1) % sizeTMod⟩ : MemBlock) :: post
             else post)
          mem := writeLE
            (writeLE (writeLE m.mem b.addr 4 kMemMagicNum) (b.addr + 8) 8
              (sizeTSub ((size + memBlockSize + alignment + 1) % sizeTMod) headerSize))
            (p - 1) 1 (p - (b.addr + headerSize + 1)) } := by
  have hs : size ≠ 0 := by
    intro hz
    rw [show Malloc.Alloc m size alignment
        = (.error (.invalidArgument "size must be a positive integer"), m) from by
      simp only [Malloc.Alloc]; rw [if_pos hz]] at h
    exact Except.noConfusion h
  have hnot : ¬(alignment = 0 ∨ IsPowerOfTwo alignment = false) := by
    intro hor
    rw [show Malloc.Alloc m size alignment
        = (.error (.invalidArgument "alignment must be a power of 2"), m) from by
      simp only [Malloc.Alloc]; rw [if_neg hs, if_pos hor]] at h
    exact Except.noConfusion h
  have hpow : IsPowerOfTwo alignment = true := by
    rcases Bool.eq_false_or_eq_true (IsPowerOfTwo alignment) with ht | hf
    · exact ht
    · exact absurd (Or.inr hf) hnot
  have hapos : 0 < alignment := by
    by_contra hz
    exact hnot (Or.inl (by omega))
  refine ⟨hs, hpow, ?_⟩
  cases hsp : splitFirstFit ((size + memBlockSize + alignment + 1) % sizeTMod) m.freeList with
  | none =>
    rw [Alloc_eq_noFit m size alignment hs hnot hsp] at h
    exact Option.noConfusion (Except.ok.inj h)
  | some pr =>
    obtain ⟨addr, fl'⟩ := pr
    cases hal : stdAlign alignment
        (sizeTSub (sizeTSub (sizeTSub ((size + memBlockSize + alignment + 1) % sizeTMod)
          headerSize) 1) alignment)
        (addr + headerSize + 1)
        (sizeTSub (sizeTSub ((size + memBlockSize + alignment + 1) % sizeTMod) headerSize) 1)
      with
    | none =>
      rw [Alloc_eq_alignFail m size alignment addr fl' hs hnot hsp hal] at h
      exact Option.noConfusion (Except.ok.inj h)
    | some pr2 =>
      obtain ⟨u, sp'⟩ := pr2
      have heval := Alloc_eq_fit m size alignment addr u sp' fl' hs hnot hsp hal
      rw [heval] at h
      have hp : p = u := (Option.some.inj (Except.ok.inj h)).symm
      obtain ⟨hu, hsp', hfit⟩ := stdAlign_some hal
      obtain ⟨pre, b, post, hsplit, hpre, hb, haddr, hfl'⟩ :=
        splitFirstFit_some _ _ _ _ hsp
      subst haddr
      have hub := alignUp_ge (b.addr + headerSize + 1) alignment hapos
      refine ⟨pre, b, post, hsplit, hpre, hb, by rw [hp, hu], ?_⟩
      rw [heval]
      show allocResultState m size alignment b.addr u sp' fl' = _
      unfold allocResultState
      rw [hfl']
      have hskip : sizeTSub (sizeTSub ((size + memBlockSize + alignment + 1) % sizeTMod)
          headerSize) 1 - sp' = p - (b.addr + headerSize + 1) := by
        rw [hp]
        rw [← hu] at hub
        generalize hT : sizeTSub (sizeTSub ((size + memBlockSize + alignment + 1) % sizeTMod)
          headerSize) 1 = T at hsp' hfit ⊢
        omega
      have hp1 : u - 1 = p - 1 := by rw [hp]
      rw [hskip, hp1]

theorem IsPowerOfTwo_pos (a : Nat) (h : IsPowerOfTwo a = true) : 0 < a := by
  unfold IsPowerOfTwo at h
  rcases (Bool.and_eq_true _ _).mp h with ⟨h1, _⟩
  have := bne_iff_ne.mp h1
  omega

/-! ### Evaluation lemmas for the error branches -/

theorem Alloc_eq_zeroSize (m : Malloc) (size alignment : Nat) (hz : size = 0) :
    Malloc.Alloc m size alignment
      = (.error (.invalidArgument "size must be a positive integer"), m) := by
  simp only [Malloc.Alloc]
  rw [if_pos hz]

theorem Alloc_eq_badAlign (m : Malloc) (size alignment : Nat) (hs : ¬size = 0)
    (hor : alignment = 0 ∨ IsPowerOfTwo alignment = false) :
    Malloc.Alloc m size alignment
      = (.error (.invalidArgument "alignment must be a power of 2"), m) := by
  simp only [Malloc.Alloc]
  rw [if_neg hs, if_pos hor]

theorem Free_eq_null (m : Malloc) (p : Nat) (hz : p = 0) :
    Malloc.Free m p = (.error (.runtimeError "cannot free NULL mem block"), m) := by
  simp only [Malloc.Free]
  rw [if_pos hz]

theorem Free_eq_badMagic (m : Malloc) (p : Nat) (hp : ¬p = 0)
    (hmg : readLE m.mem (p - 1 - readLE m.mem (p - 1) 1 - headerSize) 4 ≠ kMemMagicNum) :
    Malloc.Free m p = (.error (.runtimeError "invalid mem block magic number"), m) := by
  simp only [Malloc.Free]
  rw [if_neg hp, if_pos hmg]

/-- The state a successful `Free` produces. -/
def freeResultState (m : Malloc) (p : Nat) : Malloc :=
  let cnt := readLE m.mem (p - 1) 1
  let h := p - 1 - cnt - headerSize
  let hsize := readLE m.mem (h + 8) 8
  let nodeSize := (hsize + headerSize) % sizeTMod
  { m with
    freeList := MergeFreeBlocks (InsertFreeMemBlock ⟨h, nodeSize⟩ m.freeList)
    mem := writeLE (writeLE m.mem h 8 nodeSize) (h + 8) 8 0 }

theorem Free_eq_ok (m : Malloc) (p : Nat) (hp : ¬p = 0)
    (hmg : readLE m.mem (p - 1 - readLE m.mem (p - 1) 1 - headerSize) 4 = kMemMagicNum) :
    Malloc.Free m p = (.ok (), freeResultState m p) := by
  simp only [Malloc.Free]
  rw [if_neg hp, if_neg (not_not_intro hmg)]
  rfl

/-! ### C5: returned pointers are aligned -/

/-- C5: every pointer returned by a successful `Alloc(s, a)` is `a`-aligned:
the user pointer is `std::align`'s rounding of `header + 1 + 1` up to the
next multiple of `a`. -/
theorem c5_alignment (m : Malloc) (size alignment p : Nat)
    (h : (Malloc.Alloc m size alignment).1 = .ok (some p)) : p % alignment = 0 := by
  obtain ⟨-, -, pre, b, post, -, -, -, hp, -⟩ := Alloc_some_spec m size alignment p h
  rw [hp]
  exact alignUp_mod _ _

/-- Witness for `c5_alignment`: `Alloc(100, 64)` on a fresh 4096-byte region
based at 65536 returns 65600, which is 64-aligned. -/
theorem c5_alignment_witness :
    (Malloc.Alloc (Malloc.init 4096 4096 65536) 100 64).1 = .ok (some 65600) ∧
    65600 % 64 = 0 :=
  ⟨by decide, c5_alignment (Malloc.init 4096 4096 65536) 100 64 65600 (by decide)⟩

/-! ### C3: first-fit search, split, and null-on-exhaustion -/

/-- C3 counterexample: the claim reads `req_space` as the mathematical sum,
but the source computes it in `std::size_t`, where it wraps.  At
`Alloc(2^64 − 25, 8)` on a fresh 4096-byte region, `req_space` wraps to 0,
so although every free node's size (4080) is far below the mathematical
`size + sizeof(MemBlock) + alignment + 1`, the call returns the non-null
pointer 65560 instead of null — and the "residual" node of the split is the
consumed node itself, left in the free list while the header store smashes
its record in the source's memory. -/
theorem c3_counterexample :
    ((2 ^ 64 - 25) + memBlockSize + 8 + 1) % sizeTMod = 0 ∧
    (∀ b ∈ (Malloc.init 4096 4096 65536).freeList,
      b.size < (2 ^ 64 - 25) + memBlockSize + 8 + 1) ∧
    (Malloc.Alloc (Malloc.init 4096 4096 65536) (2 ^ 64 - 25) 8).1 = .ok (some 65560) ∧
    (Malloc.Alloc (Malloc.init 4096 4096 65536) (2 ^ 64 - 25) 8).2.freeList
      = [⟨65536, 4080⟩] := by
  refine ⟨?_, ?_, ?_, ?_⟩ <;> decide

/-- C3 (amended with the precondition that
`req_space = size + sizeof(MemBlock) + alignment + 1` does not overflow
`std::size_t`): with valid arguments, `Alloc` returns null with no error and
no state change exactly when no free node has `size ≥ req_space`, and
otherwise consumes the first sufficiently large node in list order,
splitting off a residual node of size `node.size − req_space` at
`node + req_space` when `req_space < node.size`; it never raises an error. -/
theorem c3_first_fit (m : Malloc) (size alignment : Nat) (hs : size ≠ 0)
    (hpow : IsPowerOfTwo alignment = true)
    (hnowrap : size + memBlockSize + alignment + 1 < sizeTMod) :
    (Malloc.Alloc m size alignment = (.ok none, m)
      ↔ ∀ b ∈ m.freeList, b.size < size + memBlockSize + alignment + 1) ∧
    (∀ p, (Malloc.Alloc m size alignment).1 = .ok (some p) →
      ∃ pre b post, m.freeList = pre ++ b :: post ∧
        (∀ c ∈ pre, c.size < size + memBlockSize + alignment + 1) ∧
        size + memBlockSize + alignment + 1 ≤ b.size ∧
        (Malloc.Alloc m size alignment).2.freeList =
          pre ++ (if size + memBlockSize + alignment + 1 < b.size then
            (⟨b.addr + (size + memBlockSize + alignment + 1),
              b.size - (size + memBlockSize + alignment + 1)⟩ : MemBlock) :: post
           else post)) ∧
    ((Malloc.Alloc m size alignment).1 = .ok none ∨
      ∃ p, (Malloc.Alloc m size alignment).1 = .ok (some p)) := by
  have hnot : ¬(alignment = 0 ∨ IsPowerOfTwo alignment = false) := by
    intro hor
    rcases hor with h0 | hf
    · have := IsPowerOfTwo_pos alignment hpow
      omega
    · rw [hpow] at hf
      exact Bool.noConfusion hf
  have hapos := IsPowerOfTwo_pos alignment hpow
  have hreqe : (size + memBlockSize + alignment + 1) % sizeTMod
      = size + memBlockSize + alignment + 1 := Nat.mod_eq_of_lt hnowrap
  refine ⟨?_, ?_, ?_⟩
  · constructor
    · intro h
      cases hsp : splitFirstFit ((size + memBlockSize + alignment + 1) % sizeTMod)
          m.freeList with
      | none =>
        have hlt := (splitFirstFit_none_iff _ _).mp hsp
        rw [hreqe] at hlt
        exact hlt
      | some pr =>
        obtain ⟨addr, fl'⟩ := pr
        rw [Alloc_eq_fit m size alignment addr _ _ fl' hs hnot hsp
          (stdAlign_raw alignment size addr hs hapos hnowrap)] at h
        exact absurd (congrArg Prod.fst h) (by simp)
    · intro h
      refine Alloc_eq_noFit m size alignment hs hnot ((splitFirstFit_none_iff _ _).mpr ?_)
      rw [hreqe]
      exact h
  · intro p hp
    obtain ⟨-, -, pre, b, post, hsplit, hpre, hb, -, hstate⟩ :=
      Alloc_some_spec m size alignment p hp
    rw [hreqe] at hpre hb hstate
    refine ⟨pre, b, post, hsplit, hpre, hb, ?_⟩
    rw [hstate]
  · cases hsp : splitFirstFit ((size + memBlockSize + alignment + 1) % sizeTMod)
        m.freeList with
    | none =>
      exact Or.inl (congrArg Prod.fst (Alloc_eq_noFit m size alignment hs hnot hsp))
    | some pr =>
      obtain ⟨addr, fl'⟩ := pr
      exact Or.inr ⟨_, congrArg Prod.fst (Alloc_eq_fit m size alignment addr _ _ fl' hs hnot
        hsp (stdAlign_raw alignment size addr hs hapos hnowrap))⟩

/-- Witness for `c3_first_fit` at `Alloc(100, 8)` on a fresh region. -/
theorem c3_first_fit_witness :
    ((Malloc.init 4096 4096 65536).Alloc 100 8 = (.ok none, Malloc.init 4096 4096 65536)
      ↔ ∀ b ∈ (Malloc.init 4096 4096 65536).freeList, b.size < 100 + memBlockSize + 8 + 1) ∧
    (∀ p, ((Malloc.init 4096 4096 65536).Alloc 100 8).1 = .ok (some p) →
      ∃ pre b post, (Malloc.init 4096 4096 65536).freeList = pre ++ b :: post ∧
        (∀ c ∈ pre, c.size < 100 + memBlockSize + 8 + 1) ∧
        100 + memBlockSize + 8 + 1 ≤ b.size ∧
        ((Malloc.init 4096 4096 65536).Alloc 100 8).2.freeList =
          pre ++ (if 100 + memBlockSize + 8 + 1 < b.size then
            (⟨b.addr + (100 + memBlockSize + 8 + 1),
              b.size - (100 + memBlockSize + 8 + 1)⟩ : MemBlock) :: post
           else post)) ∧
    (((Malloc.init 4096 4096 65536).Alloc 100 8).1 = .ok none ∨
      ∃ p, ((Malloc.init 4096 4096 65536).Alloc 100 8).1 = .ok (some p)) :=
  c3_first_fit (Malloc.init 4096 4096 65536) 100 8 (by decide) (by decide) (by decide)

/-! ### C6: error conditions and exception safety -/

/-- C6: `Alloc` raises `std::invalid_argument` exactly when `size == 0`,
`alignment == 0`, or `alignment` is not a power of two; `Free` raises
`std::runtime_error` exactly when `ptr` is null or the header recovered from
`ptr` holds a magic different from the sentinel; every raised error is of
that kind, and a raising call leaves the allocator (free list, region bytes,
region size) unchanged. -/
theorem c6_errors (m : Malloc) (size alignment p : Nat) :
    ((∃ e, (Malloc.Alloc m size alignment).1 = .error e)
      ↔ size = 0 ∨ alignment = 0 ∨ IsPowerOfTwo alignment = false) ∧
    (∀ e, (Malloc.Alloc m size alignment).1 = .error e →
      (∃ msg, e = .invalidArgument msg) ∧ (Malloc.Alloc m size alignment).2 = m) ∧
    ((∃ e, (Malloc.Free m p).1 = .error e)
      ↔ p = 0 ∨ readLE m.mem (p - 1 - readLE m.mem (p - 1) 1 - headerSize) 4 ≠ kMemMagicNum) ∧
    (∀ e, (Malloc.Free m p).1 = .error e →
      (∃ msg, e = .runtimeError msg) ∧ (Malloc.Free m p).2 = m) := by
  have allocCases :
      (size = 0 ∧ Malloc.Alloc m size alignment
        = (.error (.invalidArgument "size must be a positive integer"), m)) ∨
      (size ≠ 0 ∧ (alignment = 0 ∨ IsPowerOfTwo alignment = false) ∧ Malloc.Alloc m size alignment
        = (.error (.invalidArgument "alignment must be a power of 2"), m)) ∨
      (size ≠ 0 ∧ ¬(alignment = 0 ∨ IsPowerOfTwo alignment = false) ∧
        ((Malloc.Alloc m size alignment).1 = .ok none ∨
         ∃ q, (Malloc.Alloc m size alignment).1 = .ok (some q))) := by
    by_cases hz : size = 0
    · exact Or.inl ⟨hz, Alloc_eq_zeroSize m size alignment hz⟩
    by_cases hor : alignment = 0 ∨ IsPowerOfTwo alignment = false
    · exact Or.inr (Or.inl ⟨hz, hor, Alloc_eq_badAlign m size alignment hz hor⟩)
    refine Or.inr (Or.inr ⟨hz, hor, ?_⟩)
    cases hsp : splitFirstFit ((size + memBlockSize + alignment + 1) % sizeTMod)
        m.freeList with
    | none => exact Or.inl (congrArg Prod.fst (Alloc_eq_noFit m size alignment hz hor hsp))
    | some pr =>
      obtain ⟨addr, fl'⟩ := pr
      cases hal : stdAlign alignment
          (sizeTSub (sizeTSub (sizeTSub ((size + memBlockSize + alignment + 1) % sizeTMod)
            headerSize) 1) alignment)
          (addr + headerSize + 1)
          (sizeTSub (sizeTSub ((size + memBlockSize + alignment + 1) % sizeTMod) headerSize) 1)
        with
      | none =>
        exact Or.inl (congrArg Prod.fst
          (Alloc_eq_alignFail m size alignment addr fl' hz hor hsp hal))
      | some pr2 =>
        obtain ⟨u, sp'⟩ := pr2
        exact Or.inr ⟨_, congrArg Prod.fst
          (Alloc_eq_fit m size alignment addr u sp' fl' hz hor hsp hal)⟩
  have freeCases :
      (p = 0 ∧ Malloc.Free m p
        = (.error (.runtimeError "cannot free NULL mem block"), m)) ∨
      (p ≠ 0 ∧ readLE m.mem (p - 1 - readLE m.mem (p - 1) 1 - headerSize) 4 ≠ kMemMagicNum ∧
        Malloc.Free m p = (.error (.runtimeError "invalid mem block magic number"), m)) ∨
      (p ≠ 0 ∧ readLE m.mem (p - 1 - readLE m.mem (p - 1) 1 - headerSize) 4 = kMemMagicNum ∧
        Malloc.Free m p = (.ok (), freeResultState m p)) := by
    by_cases hz : p = 0
    · exact Or.inl ⟨hz, Free_eq_null m p hz⟩
    by_cases hmg : readLE m.mem (p - 1 - readLE m.mem (p - 1) 1 - headerSize) 4 = kMemMagicNum
    · exact Or.inr (Or.inr ⟨hz, hmg, Free_eq_ok m p hz hmg⟩)
    · exact Or.inr (Or.inl ⟨hz, hmg, Free_eq_badMagic m p hz hmg⟩)
  refine ⟨?_, ?_, ?_, ?_⟩
  · constructor
    · intro ⟨e, he⟩
      rcases allocCases with ⟨hz, -⟩ | ⟨-, hor, -⟩ | ⟨-, -, hok⟩
      · exact Or.inl hz
      · exact Or.inr hor
      · exfalso
        rcases hok with hok | ⟨q, hok⟩ <;> rw [hok] at he <;> exact Except.noConfusion he
    · intro hcond
      rcases allocCases with ⟨-, heq⟩ | ⟨-, -, heq⟩ | ⟨hz, hor, -⟩
      · exact ⟨_, congrArg Prod.fst heq⟩
      · exact ⟨_, congrArg Prod.fst heq⟩
      · exfalso
        rcases hcond with h | h | h
        · exact hz h
        · exact hor (Or.inl h)
        · exact hor (Or.inr h)
  · intro e he
    rcases allocCases with ⟨-, heq⟩ | ⟨-, -, heq⟩ | ⟨-, -, hok⟩
    · rw [heq] at he ⊢
      exact ⟨⟨_, (Except.error.inj he).symm⟩, rfl⟩
    · rw [heq] at he ⊢
      exact ⟨⟨_, (Except.error.inj he).symm⟩, rfl⟩
    · exfalso
      rcases hok with hok | ⟨q, hok⟩ <;> rw [hok] at he <;> exact Except.noConfusion he
  · constructor
    · intro ⟨e, he⟩
      rcases freeCases with ⟨hz, -⟩ | ⟨-, hmg, -⟩ | ⟨-, -, heq⟩
      · exact Or.inl hz
      · exact Or.inr hmg
      · exfalso
        rw [heq] at he
        exact Except.noConfusion he
    · intro hcond
      rcases freeCases with ⟨-, heq⟩ | ⟨-, -, heq⟩ | ⟨hz, hmg, -⟩
      · exact ⟨_, congrArg Prod.fst heq⟩
      · exact ⟨_, congrArg Prod.fst heq⟩
      · exfalso
        rcases hcond with h | h
        · exact hz h
        · exact h hmg
  · intro e he
    rcases freeCases with ⟨-, heq⟩ | ⟨-, -, heq⟩ | ⟨-, -, heq⟩
    · rw [heq] at he ⊢
      exact ⟨⟨_, (Except.error.inj he).symm⟩, rfl⟩
    · rw [heq] at he ⊢
      exact ⟨⟨_, (Except.error.inj he).symm⟩, rfl⟩
    · rw [heq] at he
      exact Except.noConfusion he

/-- Witness for `c6_errors`: concrete invalid calls on a fresh region raise
and leave the allocator unchanged. -/
theorem c6_errors_witness :
    ((Malloc.Alloc (Malloc.init 4096 4096 65536) 0 8).2 = Malloc.init 4096 4096 65536) ∧
    ((Malloc.Alloc (Malloc.init 4096 4096 65536) 1024 7).2 = Malloc.init 4096 4096 65536) ∧
    ((Malloc.Free (Malloc.init 4096 4096 65536) 0).2 = Malloc.init 4096 4096 65536) ∧
    ((Malloc.Free (Malloc.init 4096 4096 65536) 300).2 = Malloc.init 4096 4096 65536) := by
  refine ⟨?_, ?_, ?_, ?_⟩
  · exact ((c6_errors (Malloc.init 4096 4096 65536) 0 8 0).2.1 _
      (congrArg Prod.fst (Alloc_eq_zeroSize _ 0 8 rfl))).2
  · exact ((c6_errors (Malloc.init 4096 4096 65536) 1024 7 0).2.1 _
      (congrArg Prod.fst (Alloc_eq_badAlign _ 1024 7 (by decide) (by decide)))).2
  · exact ((c6_errors (Malloc.init 4096 4096 65536) 1024 8 0).2.2.2 _
      (congrArg Prod.fst (Free_eq_null _ 0 rfl))).2
  · exact ((c6_errors (Malloc.init 4096 4096 65536) 1024 8 300).2.2.2 _
      (congrArg Prod.fst (Free_eq_badMagic _ 300 (by decide) (by decide)))).2

/-! ### C2: the alignment-shim byte -/

/-- C2 (amended with the precondition `alignment ≤ 256`): for every successful
`Alloc(size, alignment)` with `alignment ≤ 256`, the padding count skipped
while aligning the payload satisfies `skipped < alignment ≤ 256`, the single
byte immediately preceding the returned pointer stores `skipped` exactly, and
`Free`'s header recovery `ptr − 1 − skipped − sizeof(header)` lands on the
consumed node's address, where the magic sentinel was written. -/
theorem c2_shim_exact (m : Malloc) (size alignment p : Nat) (ha256 : alignment ≤ 256)
    (h : (Malloc.Alloc m size alignment).1 = .ok (some p)) :
    ∃ pre b post,
      m.freeList = pre ++ b :: post ∧
      p - (b.addr + headerSize + 1) < alignment ∧
      readLE (Malloc.Alloc m size alignment).2.mem (p - 1) 1 = p - (b.addr + headerSize + 1) ∧
      p - 1 - readLE (Malloc.Alloc m size alignment).2.mem (p - 1) 1 - headerSize = b.addr ∧
      readLE (Malloc.Alloc m size alignment).2.mem b.addr 4 = kMemMagicNum := by
  obtain ⟨hs, hpow, pre, b, post, hsplit, hpre, hb, hp, hstate⟩ :=
    Alloc_some_spec m size alignment p h
  have hapos := IsPowerOfTwo_pos alignment hpow
  have hub := alignUp_ge (b.addr + headerSize + 1) alignment hapos
  have hul := alignUp_lt (b.addr + headerSize + 1) alignment hapos
  have hhs : headerSize = 16 := rfl
  have hskip_lt : p - (b.addr + headerSize + 1) < alignment := by
    rw [hp]
    omega
  have hple : b.addr + headerSize + 1 ≤ p := by
    rw [hp]
    exact hub
  have hmem : (Malloc.Alloc m size alignment).2.mem
      = writeLE (writeLE (writeLE m.mem b.addr 4 kMemMagicNum) (b.addr + 8) 8
          (sizeTSub ((size + memBlockSize + alignment + 1) % sizeTMod) headerSize))
        (p - 1) 1 (p - (b.addr + headerSize + 1)) := by
    rw [hstate]
  have hshim : readLE (Malloc.Alloc m size alignment).2.mem (p - 1) 1
      = p - (b.addr + headerSize + 1) := by
    rw [hmem, readLE_writeLE]
    rw [pow_one]
    exact Nat.mod_eq_of_lt (by omega)
  refine ⟨pre, b, post, hsplit, hskip_lt, hshim, ?_, ?_⟩
  · rw [hshim]
    omega
  · rw [hmem]
    rw [readLE_writeLE_out 4 1 _ b.addr (p - 1) _ (Or.inr (by omega))]
    rw [readLE_writeLE_out 4 8 _ b.addr (b.addr + 8) _ (Or.inr (by omega))]
    rw [readLE_writeLE]
    exact Nat.mod_eq_of_lt (by norm_num [kMemMagicNum])

/-- C2 counterexample: `Alloc(100, 512)` succeeds on a fresh page-aligned
4096-byte region (512 is an accepted power of two), the skipped padding is
495 ≥ 256, the shim byte stores the truncated value 239 ≠ 495, and the
subsequent `Free` of the returned pointer fails to recover the header —
refuting `skipped < alignment ≤ 256` and exact single-byte storage for
every accepted alignment. -/
theorem c2_counterexample :
    (Malloc.Alloc (Malloc.init 4096 4096 65536) 100 512).1 = .ok (some 66048) ∧
    IsPowerOfTwo 512 = true ∧
    ¬(512 ≤ 256) ∧
    66048 - (65536 + headerSize + 1) = 495 ∧
    readLE (Malloc.Alloc (Malloc.init 4096 4096 65536) 100 512).2.mem (66048 - 1) 1 = 239 ∧
    (239 : Nat) ≠ 495 ∧
    (Malloc.Free (Malloc.Alloc (Malloc.init 4096 4096 65536) 100 512).2 66048).1
      = .error (.runtimeError "invalid mem block magic number") := by
  refine ⟨?_, ?_, ?_, ?_, ?_, ?_, ?_⟩ <;> decide

/-- Witness for `c2_shim_exact` at `Alloc(100, 128)` on a fresh region. -/
theorem c2_shim_exact_witness :
    (128 : Nat) ≤ 256 ∧
    (Malloc.Alloc (Malloc.init 4096 4096 65536) 100 128).1 = .ok (some 65664) ∧
    (∃ pre b post,
      (Malloc.init 4096 4096 65536).freeList = pre ++ b :: post ∧
      65664 - (b.addr + headerSize + 1) < 128 ∧
      readLE (Malloc.Alloc (Malloc.init 4096 4096 65536) 100 128).2.mem (65664 - 1) 1
        = 65664 - (b.addr + headerSize + 1) ∧
      65664 - 1 - readLE (Malloc.Alloc (Malloc.init 4096 4096 65536) 100 128).2.mem (65664 - 1) 1
        - headerSize = b.addr ∧
      readLE (Malloc.Alloc (Malloc.init 4096 4096 65536) 100 128).2.mem b.addr 4
        = kMemMagicNum) :=
  ⟨by decide, by decide,
    c2_shim_exact (Malloc.init 4096 4096 65536) 100 128 65664 (by decide) (by decide)⟩

/-! ### Spans, ordering, and the free-list operations' structural lemmas -/

/-- Two byte-address spans share no byte. -/
def SpanDisj (a1 s1 a2 s2 : Nat) : Prop :=
  ∀ x, ¬((a1 ≤ x ∧ x < a1 + s1) ∧ (a2 ≤ x ∧ x < a2 + s2))

theorem SpanDisj.symm' {a1 s1 a2 s2 : Nat} (h : SpanDisj a1 s1 a2 s2) :
    SpanDisj a2 s2 a1 s1 := fun x hx => h x ⟨hx.2, hx.1⟩

theorem SpanDisj.intervals {a1 s1 a2 s2 : Nat} (h : SpanDisj a1 s1 a2 s2)
    (h1 : 0 < s1) (h2 : 0 < s2) : a1 + s1 ≤ a2 ∨ a2 + s2 ≤ a1 := by
  by_contra hc
  push_neg at hc
  rcases Nat.le_total a1 a2 with hle | hle
  · exact h a2 ⟨⟨hle, by omega⟩, ⟨Nat.le_refl a2, by omega⟩⟩
  · exact h a1 ⟨⟨Nat.le_refl a1, by omega⟩, ⟨hle, by omega⟩⟩

theorem SpanDisj.of_intervals {a1 s1 a2 s2 : Nat}
    (h : a1 + s1 ≤ a2 ∨ a2 + s2 ≤ a1) : SpanDisj a1 s1 a2 s2 := by
  intro x hx
  omega

theorem SpanDisj.mono {a1 s1 a1' s1' a2 s2 : Nat} (h : SpanDisj a1 s1 a2 s2)
    (hlo : a1 ≤ a1') (hhi : a1' + s1' ≤ a1 + s1) : SpanDisj a1' s1' a2 s2 := by
  intro x hx
  exact h x ⟨⟨by omega, by omega⟩, hx.2⟩

/-- Node `b` lies entirely below node `b'` (possibly touching). -/
def before (b b' : MemBlock) : Prop := b.addr + b.size ≤ b'.addr

/-- Node `b` lies entirely below node `b'` with a gap (non-contiguous). -/
def strictBefore (b b' : MemBlock) : Prop := b.addr + b.size < b'.addr

instance : IsTrans MemBlock before :=
  ⟨fun a b c h1 h2 => Nat.le_trans h1 (Nat.le_trans (Nat.le_add_right _ _) h2)⟩

instance : IsTrans MemBlock strictBefore :=
  ⟨fun a b c h1 h2 => Nat.lt_trans h1 (Nat.lt_of_le_of_lt (Nat.le_add_right _ _) h2)⟩

/-- The free list in link order, each node strictly below the next, possibly
touching. -/
def Ordered (l : List MemBlock) : Prop := List.Chain' before l

/-- The free list in link order with no two consecutive nodes contiguous:
what the merge pass establishes. -/
def Merged (l : List MemBlock) : Prop := List.Chain' strictBefore l

theorem Merged.ordered {l : List MemBlock} (h : Merged l) : Ordered l :=
  List.Chain'.imp (fun _ _ hr => Nat.le_of_lt hr) h

theorem before.disj {b b' : MemBlock} (h : before b b') :
    SpanDisj b.addr b.size b'.addr b'.size :=
  SpanDisj.of_intervals (Or.inl h)

/-- A byte position lies in one of the listed free spans. -/
def covers (l : List MemBlock) (x : Nat) : Prop :=
  ∃ b ∈ l, b.addr ≤ x ∧ x < b.addr + b.size

theorem covers_nil (x : Nat) : covers [] x ↔ False := by
  simp [covers]

theorem covers_cons (b : MemBlock) (l : List MemBlock) (x : Nat) :
    covers (b :: l) x ↔ (b.addr ≤ x ∧ x < b.addr + b.size) ∨ covers l x := by
  simp [covers]

theorem covers_append (l1 l2 : List MemBlock) (x : Nat) :
    covers (l1 ++ l2) x ↔ covers l1 x ∨ covers l2 x := by
  simp [covers, List.mem_append]
  constructor
  · rintro ⟨b, hb | hb, hx⟩
    · exact Or.inl ⟨b, hb, hx⟩
    · exact Or.inr ⟨b, hb, hx⟩
  · rintro (⟨b, hb, hx⟩ | ⟨b, hb, hx⟩)
    · exact ⟨b, Or.inl hb, hx⟩
    · exact ⟨b, Or.inr hb, hx⟩

theorem covers_of_perm {l1 l2 : List MemBlock} (h : l1.Perm l2) (x : Nat) :
    covers l1 x ↔ covers l2 x := by
  unfold covers
  constructor
  · rintro ⟨b, hb, hx⟩
    exact ⟨b, h.mem_iff.mp hb, hx⟩
  · rintro ⟨b, hb, hx⟩
    exact ⟨b, h.mem_iff.mpr hb, hx⟩

/-! #### `InsertFreeMemBlock` -/

theorem insert_perm (n : MemBlock) :
    ∀ l : List MemBlock, (InsertFreeMemBlock n l).Perm (n :: l) := by
  intro l
  induction l with
  | nil => exact List.Perm.refl _
  | cons c t ih =>
    rw [InsertFreeMemBlock]
    split
    · exact List.Perm.refl _
    · exact (List.Perm.cons c ih).trans (List.Perm.swap n c t)

theorem insert_covers (n : MemBlock) (l : List MemBlock) (x : Nat) :
    covers (InsertFreeMemBlock n l) x
      ↔ (n.addr ≤ x ∧ x < n.addr + n.size) ∨ covers l x := by
  rw [covers_of_perm (insert_perm n l), covers_cons]

/-- Inserting a span disjoint from every listed span into a `Merged` list
yields an `Ordered` list (adjacency with a neighbour may now occur, which the
following merge pass removes). -/
theorem insert_ordered (n : MemBlock) :
    ∀ l : List MemBlock, Merged l → 0 < n.size → (∀ c ∈ l, 0 < c.size) →
    (∀ c ∈ l, SpanDisj n.addr n.size c.addr c.size) →
    Ordered (InsertFreeMemBlock n l) := by
  intro l
  induction l with
  | nil =>
    intro _ _ _ _
    exact List.chain'_singleton n
  | cons c t ih =>
    intro hm hn hpos hdisj
    rw [InsertFreeMemBlock]
    have hmt : Merged t := (List.chain'_cons'.mp hm).2
    have hct : ∀ y ∈ t.head?, strictBefore c y := (List.chain'_cons'.mp hm).1
    split
    · rename_i hle
      exact List.chain'_cons.mpr ⟨hle, hm.ordered⟩
    · rename_i hnle
      have hcd : SpanDisj n.addr n.size c.addr c.size := hdisj c (List.mem_cons_self c t)
      have hcb : before c n := by
        rcases hcd.intervals hn (hpos c (List.mem_cons_self c t)) with h | h
        · omega
        · exact h
      have hins := ih hmt hn (fun d hd => hpos d (List.mem_cons.mpr (Or.inr hd)))
        (fun d hd => hdisj d (List.mem_cons.mpr (Or.inr hd)))
      refine List.chain'_cons'.mpr ⟨?_, hins⟩
      intro y hy
      cases t with
      | nil =>
        rw [show InsertFreeMemBlock n [] = [n] from rfl] at hy
        simp at hy
        rw [← hy]
        exact hcb
      | cons c' t' =>
        rw [InsertFreeMemBlock] at hy
        by_cases hle' : n.addr + n.size ≤ c'.addr
        · rw [if_pos hle'] at hy
          simp at hy
          rw [← hy]
          exact hcb
        · rw [if_neg hle'] at hy
          simp at hy
          rw [← hy]
          exact Nat.le_of_lt (hct c' rfl)

/-! #### `mergeLoop` / `MergeFreeBlocks` -/

theorem mergeLoop_covers :
    ∀ (t : List MemBlock) (b : MemBlock) (x : Nat),
    covers (mergeLoop b t) x
      ↔ (b.addr ≤ x ∧ x < b.addr + b.size) ∨ covers t x := by
  intro t
  induction t with
  | nil =>
    intro b x
    rw [mergeLoop, covers_cons, covers_nil]
  | cons c t ih =>
    intro b x
    rw [mergeLoop]
    split
    · rename_i hadj
      rw [ih, covers_cons]
      constructor
      · rintro (h | h)
        · simp only at h
          by_cases hx : x < b.addr + b.size
          · exact Or.inl ⟨h.1, hx⟩
          · exact Or.inr (Or.inl ⟨by omega, by omega⟩)
        · exact Or.inr (Or.inr h)
      · rintro (h | h | h)
        · exact Or.inl ⟨h.1, by simp only; omega⟩
        · exact Or.inl ⟨by simp only; omega, by simp only; omega⟩
        · exact Or.inr h
    · rw [covers_cons, ih, covers_cons]

/-- The merge pass on a sorted positive list: the head's address is kept, the
result is `Merged`, all sizes stay positive, and the head absorbs at least
its own size. -/
theorem mergeLoop_spec :
    ∀ (t : List MemBlock) (b : MemBlock), Ordered (b :: t) → 0 < b.size →
    (∀ c ∈ t, 0 < c.size) →
    ∃ s' t', mergeLoop b t = ⟨b.addr, s'⟩ :: t' ∧ b.size ≤ s' ∧
      Merged (⟨b.addr, s'⟩ :: t') ∧ (∀ c ∈ mergeLoop b t, 0 < c.size) := by
  intro t
  induction t with
  | nil =>
    intro b _ hb _
    refine ⟨b.size, [], rfl, Nat.le_refl _, List.chain'_singleton _, ?_⟩
    intro c hc
    rw [mergeLoop] at hc
    simp at hc
    rw [hc]
    exact hb
  | cons c t ih =>
    intro b hord hb hpos
    have hrel : before b c := (List.chain'_cons.mp hord).1
    have hordt : Ordered (c :: t) := (List.chain'_cons.mp hord).2
    rw [mergeLoop]
    split
    · rename_i hadj
      have hord' : Ordered (⟨b.addr, b.size + c.size⟩ :: t) := by
        refine List.chain'_cons'.mpr ⟨?_, (List.chain'_cons'.mp hordt).2⟩
        intro y hy
        have := (List.chain'_cons'.mp hordt).1 y hy
        unfold before at this ⊢
        simp only at *
        omega
      have hpos' : 0 < b.size + c.size := by
        have := hpos c (List.mem_cons_self c t)
        omega
      obtain ⟨s', t', heq, hge, hm, hp⟩ := ih ⟨b.addr, b.size + c.size⟩ hord' hpos'
        (fun d hd => hpos d (List.mem_cons.mpr (Or.inr hd)))
      exact ⟨s', t', heq, by simp only at hge; omega, hm, hp⟩
    · rename_i hnadj
      obtain ⟨s', t', heq, hge, hm, hp⟩ := ih c hordt (hpos c (List.mem_cons_self c t))
        (fun d hd => hpos d (List.mem_cons.mpr (Or.inr hd)))
      rw [heq]
      refine ⟨b.size, ⟨c.addr, s'⟩ :: t', rfl, Nat.le_refl _, ?_, ?_⟩
      · refine List.chain'_cons.mpr ⟨?_, hm⟩
        unfold before at hrel
        unfold strictBefore
        simp only
        omega
      · intro d hd
        rcases List.mem_cons.mp hd with hd | hd
        · rw [hd]
          exact hb
        · rw [heq] at hp
          exact hp d hd

theorem merge_covers (l : List MemBlock) (x : Nat) :
    covers (MergeFreeBlocks l) x ↔ covers l x := by
  cases l with
  | nil => rw [MergeFreeBlocks]
  | cons b t =>
    rw [MergeFreeBlocks, mergeLoop_covers, covers_cons]

theorem merge_spec (l : List MemBlock) (hord : Ordered l) (hpos : ∀ c ∈ l, 0 < c.size) :
    Merged (MergeFreeBlocks l) ∧ (∀ c ∈ MergeFreeBlocks l, 0 < c.size) := by
  cases l with
  | nil => exact ⟨List.chain'_nil, by intro c hc; exact absurd hc (List.not_mem_nil c)⟩
  | cons b t =>
    obtain ⟨s', t', heq, hge, hm, hp⟩ := mergeLoop_spec t b hord
      (hpos b (List.mem_cons_self b t)) (fun d hd => hpos d (List.mem_cons.mpr (Or.inr hd)))
    rw [MergeFreeBlocks, heq]
    exact ⟨hm, by rw [heq] at hp; exact hp⟩

/-! ### The allocator invariant -/

/-- Ghost record of one outstanding allocation: the consumed node's address,
its `req_space`, and the pointer handed to the user. -/
structure ARec where
  addr : Nat
  req : Nat
  ptr : Nat
deriving DecidableEq, Repr

/-- Memory facts about one outstanding allocation: where the user pointer
sits inside the block, and that the shim byte, magic, and header size are in
place.  The shim byte holds the skipped padding reduced mod 256 — the
`uint8_t` store of malloc.hpp:227 truncates; it is exact whenever the
skipped count is below 256, which holds for every alignment ≤ 256. -/
structure RecOK (mem : Nat → Nat) (r : ARec) : Prop where
  lo : r.addr + headerSize + 1 ≤ r.ptr
  hi : r.ptr < r.addr + r.req
  big : headerSize + 2 ≤ r.req
  shim : readLE mem (r.ptr - 1) 1 = (r.ptr - (r.addr + headerSize + 1)) % 256
  magic : readLE mem r.addr 4 = kMemMagicNum
  hsize : readLE mem (r.addr + 8) 8 = r.req - headerSize

/-- A byte position lies in one of the outstanding allocations' spans. -/
def coversA (L : List ARec) (x : Nat) : Prop :=
  ∃ r ∈ L, r.addr ≤ x ∧ x < r.addr + r.req

theorem coversA_nil (x : Nat) : coversA [] x ↔ False := by
  simp [coversA]

theorem coversA_cons (r : ARec) (L : List ARec) (x : Nat) :
    coversA (r :: L) x ↔ (r.addr ≤ x ∧ x < r.addr + r.req) ∨ coversA L x := by
  simp [coversA]

theorem coversA_of_perm {L1 L2 : List ARec} (h : L1.Perm L2) (x : Nat) :
    coversA L1 x ↔ coversA L2 x := by
  unfold coversA
  constructor
  · rintro ⟨r, hr, hx⟩
    exact ⟨r, h.mem_iff.mp hr, hx⟩
  · rintro ⟨r, hr, hx⟩
    exact ⟨r, h.mem_iff.mpr hr, hx⟩

/-- The allocator invariant, relating the object state to the ghost ledger
`L` of outstanding allocations: the free spans and the outstanding blocks
exactly tile the bookkept part of the region `[base, base + region_size − 16)`,
pairwise disjointly; the free list is address-sorted and coalesced with
positive sizes; and every outstanding block's header and shim byte are
intact in memory. -/
structure Inv (st : Malloc) (L : List ARec) : Prop where
  hsz : headerSize + 1 ≤ st.region_size
  bound : st.mmap_start + st.region_size < 2 ^ 64
  merged : Merged st.freeList
  pos : ∀ b ∈ st.freeList, 0 < b.size
  cover : ∀ x, (st.mmap_start ≤ x ∧ x < st.mmap_start + st.region_size - memBlockSize)
      ↔ (covers st.freeList x ∨ coversA L x)
  ldisj : L.Pairwise (fun r r' => SpanDisj r.addr r.req r'.addr r'.req)
  fldisj : ∀ b ∈ st.freeList, ∀ r ∈ L, SpanDisj b.addr b.size r.addr r.req
  recs : ∀ r ∈ L, RecOK st.mem r

theorem Inv.span_in_region {st : Malloc} {L : List ARec} (h : Inv st L)
    {b : MemBlock} (hb : b ∈ st.freeList) :
    st.mmap_start ≤ b.addr ∧
    b.addr + b.size ≤ st.mmap_start + st.region_size - memBlockSize := by
  have hpos := h.pos b hb
  have h1 := (h.cover b.addr).mpr (Or.inl ⟨b, hb, Nat.le_refl _, by omega⟩)
  have h2 := (h.cover (b.addr + b.size - 1)).mpr
    (Or.inl ⟨b, hb, by omega, by omega⟩)
  omega

theorem Inv.aspan_in_region {st : Malloc} {L : List ARec} (h : Inv st L)
    {r : ARec} (hr : r ∈ L) :
    st.mmap_start ≤ r.addr ∧
    r.addr + r.req ≤ st.mmap_start + st.region_size - memBlockSize := by
  have hpos : 0 < r.req := by
    have := (h.recs r hr).big
    omega
  have h1 := (h.cover r.addr).mpr (Or.inr ⟨r, hr, Nat.le_refl _, by omega⟩)
  have h2 := (h.cover (r.addr + r.req - 1)).mpr
    (Or.inr ⟨r, hr, by omega, by omega⟩)
  omega

theorem Inv.nodup_ptrs {st : Malloc} {L : List ARec} (h : Inv st L) :
    (L.map ARec.ptr).Nodup := by
  show (L.map ARec.ptr).Pairwise (· ≠ ·)
  rw [List.pairwise_map]
  refine h.ldisj.imp_of_mem ?_
  intro r1 r2 h1 h2 hd hptr
  have o1 := h.recs r1 h1
  have o2 := h.recs r2 h2
  refine hd r1.ptr ⟨⟨?_, o1.hi⟩, ⟨?_, ?_⟩⟩
  · have := o1.lo
    omega
  · have := o2.lo
    omega
  · rw [hptr]
    exact o2.hi

theorem Inv.nodup {st : Malloc} {L : List ARec} (h : Inv st L) : L.Nodup :=
  List.Nodup.of_map ARec.ptr h.nodup_ptrs

theorem map_erase_of_nodup {α β : Type} [DecidableEq α] [DecidableEq β] (f : α → β) :
    ∀ (l : List α) (r : α), (l.map f).Nodup → r ∈ l →
    (l.erase r).map f = (l.map f).erase (f r) := by
  intro l
  induction l with
  | nil => intro r _ hr; exact absurd hr (List.not_mem_nil r)
  | cons x t ih =>
    intro r hnd hr
    by_cases hxr : x = r
    · subst hxr
      rw [List.erase_cons_head, List.map_cons, List.erase_cons_head]
    · have hrt : r ∈ t := by
        rcases List.mem_cons.mp hr with h | h
        · exact absurd h.symm hxr
        · exact h
      have hfx : f x ≠ f r := by
        intro heq
        have : f r ∈ t.map f := List.mem_map.mpr ⟨r, hrt, rfl⟩
        rw [List.map_cons] at hnd
        rw [← heq] at this
        exact (List.nodup_cons.mp hnd).1 this
      rw [List.erase_cons_tail (by simp [hxr]), List.map_cons, List.map_cons,
        List.erase_cons_tail (by simp [hfx]),
        ih r (by rw [List.map_cons] at hnd; exact (List.nodup_cons.mp hnd).2) hrt]

/-- The invariant holds for a freshly constructed allocator. -/
theorem Inv_init (P n base : Nat) (hn : 0 < n) (hP : headerSize + 1 ≤ P)
    (hbound : base + roundRegion P n < 2 ^ 64) : Inv (Malloc.init P n base) [] := by
  have hrr : P ≤ roundRegion P n := by
    unfold roundRegion
    split
    · rename_i hmod
      exact Nat.le_of_dvd hn (Nat.dvd_of_mod_eq_zero hmod)
    · omega
  have hhs : headerSize = 16 := rfl
  have hmb : memBlockSize = 16 := rfl
  refine ⟨?_, hbound, List.chain'_singleton _, ?_, ?_, List.Pairwise.nil, ?_, ?_⟩
  · show headerSize + 1 ≤ roundRegion P n
    omega
  · intro b hb
    simp only [Malloc.init, List.mem_singleton] at hb
    rw [hb]
    show 0 < roundRegion P n - memBlockSize
    omega
  · intro x
    rw [coversA_nil]
    show (base ≤ x ∧ x < base + roundRegion P n - memBlockSize)
      ↔ covers [⟨base, roundRegion P n - memBlockSize⟩] x ∨ False
    constructor
    · intro hx
      refine Or.inl ⟨⟨base, roundRegion P n - memBlockSize⟩, List.mem_singleton.mpr rfl, ?_⟩
      exact (by omega : base ≤ x ∧ x < base + (roundRegion P n - memBlockSize))
    · rintro (⟨b, hb, hx⟩ | hF)
      · rw [List.mem_singleton] at hb
        subst hb
        have hx' : base ≤ x ∧ x < base + (roundRegion P n - memBlockSize) := hx
        omega
      · exact hF.elim
  · intro b hb r hr
    exact absurd hr (List.not_mem_nil r)
  · intro r hr
    exact absurd hr (List.not_mem_nil r)

/-- Once the ledger is empty, the invariant forces the free list to be the
single construction-time node. -/
theorem Inv_empty_collapse (st : Malloc) (h : Inv st []) :
    st.freeList = [⟨st.mmap_start, st.region_size - memBlockSize⟩] := by
  have hhs : headerSize = 16 := rfl
  have hmb : memBlockSize = 16 := rfl
  have hsz := h.hsz
  have hcov : ∀ x, (st.mmap_start ≤ x ∧ x < st.mmap_start + st.region_size - memBlockSize)
      ↔ covers st.freeList x := by
    intro x
    rw [h.cover x, coversA_nil, or_false]
  have hlo : covers st.freeList st.mmap_start :=
    (hcov st.mmap_start).mp ⟨Nat.le_refl _, by omega⟩
  cases hfl : st.freeList with
  | nil =>
    rw [hfl] at hlo
    exact absurd hlo (by rw [covers_nil]; exact fun h => h)
  | cons b0 rest =>
    have hpair : (b0 :: rest).Pairwise strictBefore := by
      rw [← List.chain'_iff_pairwise]
      rw [← hfl]
      exact h.merged
    have hrest_far : ∀ b ∈ rest, b0.addr + b0.size < b.addr :=
      fun b hb => (List.pairwise_cons.mp hpair).1 b hb
    have hb0mem : b0 ∈ st.freeList := by rw [hfl]; exact List.mem_cons_self _ _
    have hb0reg := h.span_in_region hb0mem
    have hb0pos := h.pos b0 hb0mem
    have hb0lo : b0.addr = st.mmap_start := by
      rw [hfl] at hlo
      rw [covers_cons] at hlo
      rcases hlo with hlo | hlo
      · omega
      · exfalso
        obtain ⟨b, hb, hx⟩ := hlo
        have := hrest_far b hb
        have hbreg := h.span_in_region (by rw [hfl]; exact List.mem_cons.mpr (Or.inr hb))
        omega
    have hrest_nil : rest = [] := by
      cases hrest : rest with
      | nil => rfl
      | cons b1 rest' =>
        exfalso
        have hb1mem : b1 ∈ st.freeList := by
          rw [hfl, hrest]
          exact List.mem_cons.mpr (Or.inr (List.mem_cons_self _ _))
        have hb1reg := h.span_in_region hb1mem
        have hb1pos := h.pos b1 hb1mem
        have hb1far : b0.addr + b0.size < b1.addr := by
          apply hrest_far
          rw [hrest]
          exact List.mem_cons_self _ _
        have hx : covers st.freeList (b0.addr + b0.size) := by
          refine (hcov (b0.addr + b0.size)).mp ⟨by omega, by omega⟩
        rw [hfl, covers_cons] at hx
        rcases hx with hx | hx
        · omega
        · obtain ⟨b, hb, hxx⟩ := hx
          rw [hrest] at hb
          rcases List.mem_cons.mp hb with hb | hb
          · rw [hb] at hxx
            omega
          · have h2 : b1.addr + b1.size < b.addr := by
              have hpair' : (b1 :: rest').Pairwise strictBefore := by
                rw [hrest] at hpair
                exact (List.pairwise_cons.mp hpair).2
              exact (List.pairwise_cons.mp hpair').1 b hb
            omega
    subst hrest_nil
    have hhi : covers st.freeList (st.mmap_start + st.region_size - memBlockSize - 1) :=
      (hcov _).mp ⟨by omega, by omega⟩
    rw [hfl, covers_cons, covers_nil, or_false] at hhi
    have hend : b0.addr + b0.size - 1 < st.mmap_start + st.region_size - memBlockSize := by
      have := (hcov (b0.addr + b0.size - 1)).mpr
        (by rw [hfl, covers_cons]; exact Or.inl ⟨by omega, by omega⟩)
      omega
    have : b0.size = st.region_size - memBlockSize := by omega
    cases b0 with
    | mk a s =>
      simp only at hb0lo this
      rw [hb0lo, this]

theorem SpanDisj.monoR {a1 s1 a2 s2 a2' s2' : Nat} (h : SpanDisj a1 s1 a2 s2)
    (hlo : a2 ≤ a2') (hhi : a2' + s2' ≤ a2 + s2) : SpanDisj a1 s1 a2' s2' := by
  intro x hx
  exact h x ⟨hx.1, ⟨by omega, by omega⟩⟩

/-- The state of a successful, non-overflowing `Alloc` with the arithmetic
in simplified form (header size store is `size + alignment + 1`, the shim
byte stores `p − (addr + 17)` where `p` is the returned pointer). -/
theorem Alloc_state_clean (st : Malloc) (size alignment addr p : Nat)
    (fl' : List MemBlock) (hs : size ≠ 0) (hpow : IsPowerOfTwo alignment = true)
    (hnowrap : size + memBlockSize + alignment + 1 < sizeTMod)
    (hsp : splitFirstFit (size + memBlockSize + alignment + 1) st.freeList = some (addr, fl'))
    (hp : p = alignUp (addr + headerSize + 1) alignment) :
    (Malloc.Alloc st size alignment).1 = .ok (some p) ∧
    (Malloc.Alloc st size alignment).2 =
      { st with
        freeList := fl'
        mem := writeLE
          (writeLE (writeLE st.mem addr 4 kMemMagicNum) (addr + 8) 8
            (size + alignment + 1))
          (p - 1) 1 (p - (addr + headerSize + 1)) } := by
  have hapos := IsPowerOfTwo_pos alignment hpow
  have hnot : ¬(alignment = 0 ∨ IsPowerOfTwo alignment = false) := by
    rintro (h0 | hf)
    · omega
    · rw [hpow] at hf
      exact Bool.noConfusion hf
  have hreqe : (size + memBlockSize + alignment + 1) % sizeTMod
      = size + memBlockSize + alignment + 1 := Nat.mod_eq_of_lt hnowrap
  have hsp' : splitFirstFit ((size + memBlockSize + alignment + 1) % sizeTMod) st.freeList
      = some (addr, fl') := by
    rw [hreqe]
    exact hsp
  have heval := Alloc_eq_fit st size alignment addr _ _ fl' hs hnot hsp'
    (stdAlign_raw alignment size addr hs hapos hnowrap)
  have hub := alignUp_ge (addr + headerSize + 1) alignment hapos
  have hul := alignUp_lt (addr + headerSize + 1) alignment hapos
  obtain ⟨e0, e1, e2, e3⟩ := alloc_arith_noWrap size alignment hs hapos hnowrap
  constructor
  · rw [heval, hp]
  · rw [heval]
    show allocResultState st size alignment addr
      (alignUp (addr + headerSize + 1) alignment)
      (size + alignment
        - (alignUp (addr + headerSize + 1) alignment - (addr + headerSize + 1))) fl' = _
    unfold allocResultState
    rw [e1, e2]
    have e4 : size + alignment
        - (size + alignment
            - (alignUp (addr + headerSize + 1) alignment - (addr + headerSize + 1)))
        = p - (addr + headerSize + 1) := by
      rw [hp]
      omega
    have e5 : alignUp (addr + headerSize + 1) alignment - 1 = p - 1 := by
      rw [hp]
    rw [e4, e5]

/-- `Alloc` preserves the invariant: a successful call moves the consumed
span from the free side to the ledger side of the tiling, writes its header
and shim inside that span only, and leaves every other outstanding block's
bytes untouched. -/
theorem alloc_inv (st : Malloc) (L : List ARec) (size alignment p addr : Nat)
    (fl' : List MemBlock) (hInv : Inv st L)
    (hnowrap : size + memBlockSize + alignment + 1 < sizeTMod)
    (h : (Malloc.Alloc st size alignment).1 = .ok (some p))
    (hsp : splitFirstFit (size + memBlockSize + alignment + 1) st.freeList = some (addr, fl')) :
    Inv (Malloc.Alloc st size alignment).2
      (⟨addr, size + memBlockSize + alignment + 1, p⟩ :: L) := by
  obtain ⟨hs, hpow, -⟩ := Alloc_some_spec st size alignment p h
  have hapos := IsPowerOfTwo_pos alignment hpow
  have hhs : headerSize = 16 := rfl
  have hmb : memBlockSize = 16 := rfl
  obtain ⟨pre, b, post, hsplit, hpre, hbfit, haddrEq, hfl'eq⟩ :=
    splitFirstFit_some _ _ _ _ hsp
  subst haddrEq
  have hpeq : p = alignUp (b.addr + headerSize + 1) alignment := by
    have := (Alloc_state_clean st size alignment b.addr
      (alignUp (b.addr + headerSize + 1) alignment) fl' hs hpow hnowrap hsp rfl).1
    rw [this] at h
    exact (Option.some.inj (Except.ok.inj h)).symm
  obtain ⟨-, hstate⟩ :=
    Alloc_state_clean st size alignment b.addr p fl' hs hpow hnowrap hsp hpeq
  have hub : b.addr + headerSize + 1 ≤ p := by
    rw [hpeq]
    exact alignUp_ge _ _ hapos
  have hul : p < b.addr + headerSize + 1 + alignment := by
    rw [hpeq]
    exact alignUp_lt _ _ hapos
  have hbmem : b ∈ st.freeList := by
    rw [hsplit]
    exact List.mem_append.mpr (Or.inr (List.mem_cons_self _ _))
  have hbreg := hInv.span_in_region hbmem
  have hbpos := hInv.pos b hbmem
  have hbound := hInv.bound
  have hm : Merged (pre ++ b :: post) := by
    rw [← hsplit]
    exact hInv.merged
  obtain ⟨hmpre, hmbpost, hlink⟩ := List.chain'_append.mp hm
  have hpostrel : ∀ y ∈ post.head?, strictBefore b y := (List.chain'_cons'.mp hmbpost).1
  have hmpost : Merged post := (List.chain'_cons'.mp hmbpost).2
  have hpw : (pre ++ b :: post).Pairwise strictBefore := by
    rw [← List.chain'_iff_pairwise]
    exact hm
  obtain ⟨hpwpre, hpwbpost, hcross⟩ := List.pairwise_append.mp hpw
  rw [hstate]
  refine ⟨hInv.hsz, hInv.bound, ?_, ?_, ?_, ?_, ?_, ?_⟩
  · -- Merged fl'
    show Merged fl'
    rw [hfl'eq]
    by_cases hcase : size + memBlockSize + alignment + 1 < b.size
    · rw [if_pos hcase]
      refine List.chain'_append.mpr ⟨hmpre, ?_, ?_⟩
      · refine List.chain'_cons'.mpr ⟨?_, hmpost⟩
        intro y hy
        have := hpostrel y hy
        unfold strictBefore at this ⊢
        simp only at *
        omega
      · intro x hx y hy
        have hxb := hlink x hx b rfl
        unfold strictBefore at hxb ⊢
        rw [List.head?_cons] at hy
        rw [Option.mem_def] at hy
        injection hy with hy
        rw [← hy]
        simp only
        omega
    · rw [if_neg hcase]
      refine List.chain'_append.mpr ⟨hmpre, hmpost, ?_⟩
      intro x hx y hy
      have hxb := hlink x hx b rfl
      have hby := hpostrel y hy
      unfold strictBefore at hxb hby ⊢
      omega
  · -- positive sizes
    show ∀ c ∈ fl', 0 < c.size
    intro c hc
    rw [hfl'eq] at hc
    rcases List.mem_append.mp hc with hc | hc
    · exact hInv.pos c (by rw [hsplit]; exact List.mem_append.mpr (Or.inl hc))
    · by_cases hcase : size + memBlockSize + alignment + 1 < b.size
      · rw [if_pos hcase] at hc
        rcases List.mem_cons.mp hc with hc | hc
        · rw [hc]
          show 0 < b.size - (size + memBlockSize + alignment + 1)
          omega
        · exact hInv.pos c
            (by rw [hsplit]; exact List.mem_append.mpr (Or.inr (List.mem_cons.mpr (Or.inr hc))))
      · rw [if_neg hcase] at hc
        exact hInv.pos c
          (by rw [hsplit]; exact List.mem_append.mpr (Or.inr (List.mem_cons.mpr (Or.inr hc))))
  · -- cover
    have hcore : ∀ x, (covers fl' x
        ∨ (b.addr ≤ x ∧ x < b.addr + (size + memBlockSize + alignment + 1)))
        ↔ covers st.freeList x := by
      intro x
      rw [hfl'eq, hsplit, covers_append, covers_append, covers_cons]
      by_cases hcase : size + memBlockSize + alignment + 1 < b.size
      · rw [if_pos hcase, covers_cons]
        constructor
        · rintro ((hpre' | (hres | hpost')) | hn)
          · exact Or.inl hpre'
          · refine Or.inr (Or.inl ?_)
            simp only at hres ⊢
            omega
          · exact Or.inr (Or.inr hpost')
          · exact Or.inr (Or.inl (by omega))
        · rintro (hpre' | (hbsp | hpost'))
          · exact Or.inl (Or.inl hpre')
          · by_cases hx : x < b.addr + (size + memBlockSize + alignment + 1)
            · exact Or.inr ⟨hbsp.1, hx⟩
            · refine Or.inl (Or.inr (Or.inl ?_))
              simp only
              omega
          · exact Or.inl (Or.inr (Or.inr hpost'))
      · rw [if_neg hcase]
        constructor
        · rintro ((hpre' | hpost') | hn)
          · exact Or.inl hpre'
          · exact Or.inr (Or.inr hpost')
          · exact Or.inr (Or.inl (by omega))
        · rintro (hpre' | (hbsp | hpost'))
          · exact Or.inl (Or.inl hpre')
          · exact Or.inr (by omega)
          · exact Or.inl (Or.inr hpost')
    intro x
    show (st.mmap_start ≤ x ∧ x < st.mmap_start + st.region_size - memBlockSize)
      ↔ covers fl' x ∨ coversA (⟨b.addr, size + memBlockSize + alignment + 1, p⟩ :: L) x
    rw [coversA_cons]
    constructor
    · intro hx
      rcases (hInv.cover x).mp hx with hc | hc
      · rcases (hcore x).mpr hc with h' | h'
        · exact Or.inl h'
        · exact Or.inr (Or.inl h')
      · exact Or.inr (Or.inr hc)
    · intro hx
      rcases hx with h' | h' | h'
      · exact (hInv.cover x).mpr (Or.inl ((hcore x).mp (Or.inl h')))
      · exact (hInv.cover x).mpr (Or.inl ((hcore x).mp (Or.inr h')))
      · exact (hInv.cover x).mpr (Or.inr h')
  · -- pairwise disjoint ledger
    refine List.pairwise_cons.mpr ⟨?_, hInv.ldisj⟩
    intro r hr
    show SpanDisj b.addr (size + memBlockSize + alignment + 1) r.addr r.req
    exact (hInv.fldisj b hbmem r hr).mono (Nat.le_refl _) (by omega)
  · -- free spans disjoint from ledger spans
    intro c hc r hr
    rcases List.mem_cons.mp hr with hrn | hrL
    · subst hrn
      show SpanDisj c.addr c.size b.addr (size + memBlockSize + alignment + 1)
      rw [hfl'eq] at hc
      rcases List.mem_append.mp hc with hc | hc
      · have hcb : strictBefore c b := hcross c hc b (List.mem_cons_self _ _)
        unfold strictBefore at hcb
        exact SpanDisj.of_intervals (Or.inl (by omega))
      · by_cases hcase : size + memBlockSize + alignment + 1 < b.size
        · rw [if_pos hcase] at hc
          rcases List.mem_cons.mp hc with hc | hc
          · rw [hc]
            exact SpanDisj.of_intervals (Or.inr (by simp only; omega))
          · have hbc : strictBefore b c := by
              have : (b :: post).Pairwise strictBefore := hpwbpost
              exact (List.pairwise_cons.mp this).1 c hc
            unfold strictBefore at hbc
            exact SpanDisj.of_intervals (Or.inr (by omega))
        · rw [if_neg hcase] at hc
          have hbc : strictBefore b c := (List.pairwise_cons.mp hpwbpost).1 c hc
          unfold strictBefore at hbc
          exact SpanDisj.of_intervals (Or.inr (by omega))
    · rw [hfl'eq] at hc
      rcases List.mem_append.mp hc with hc | hc
      · exact hInv.fldisj c (by rw [hsplit]; exact List.mem_append.mpr (Or.inl hc)) r hrL
      · by_cases hcase : size + memBlockSize + alignment + 1 < b.size
        · rw [if_pos hcase] at hc
          rcases List.mem_cons.mp hc with hc | hc
          · rw [hc]
            refine (hInv.fldisj b hbmem r hrL).mono ?_ ?_
            · show b.addr ≤ b.addr + (size + memBlockSize + alignment + 1)
              omega
            · show b.addr + (size + memBlockSize + alignment + 1)
                + (b.size - (size + memBlockSize + alignment + 1)) ≤ b.addr + b.size
              omega
          · exact hInv.fldisj c
              (by rw [hsplit]; exact List.mem_append.mpr (Or.inr (List.mem_cons.mpr (Or.inr hc)))) r hrL
        · rw [if_neg hcase] at hc
          exact hInv.fldisj c
            (by rw [hsplit]; exact List.mem_append.mpr (Or.inr (List.mem_cons.mpr (Or.inr hc)))) r hrL
  · -- per-record memory facts
    intro r hr
    rcases List.mem_cons.mp hr with hrn | hrL
    · subst hrn
      refine ⟨?_, ?_, ?_, ?_, ?_, ?_⟩
      · exact hub
      · show p < b.addr + (size + memBlockSize + alignment + 1)
        omega
      · show headerSize + 2 ≤ size + memBlockSize + alignment + 1
        omega
      · show readLE (writeLE (writeLE (writeLE st.mem b.addr 4 kMemMagicNum)
            (b.addr + 8) 8 (size + alignment + 1)) (p - 1) 1 (p - (b.addr + headerSize + 1)))
            (p - 1) 1 = (p - (b.addr + headerSize + 1)) % 256
        rw [readLE_writeLE, pow_one]
      · show readLE (writeLE (writeLE (writeLE st.mem b.addr 4 kMemMagicNum)
            (b.addr + 8) 8 (size + alignment + 1)) (p - 1) 1 (p - (b.addr + headerSize + 1)))
            b.addr 4 = kMemMagicNum
        rw [readLE_writeLE_out 4 1 _ b.addr (p - 1) _ (Or.inr (by omega))]
        rw [readLE_writeLE_out 4 8 _ b.addr (b.addr + 8) _ (Or.inr (by omega))]
        rw [readLE_writeLE]
        exact Nat.mod_eq_of_lt (by norm_num [kMemMagicNum])
      · show readLE (writeLE (writeLE (writeLE st.mem b.addr 4 kMemMagicNum)
            (b.addr + 8) 8 (size + alignment + 1)) (p - 1) 1 (p - (b.addr + headerSize + 1)))
            (b.addr + 8) 8 = size + memBlockSize + alignment + 1 - headerSize
        rw [readLE_writeLE_out 8 1 _ (b.addr + 8) (p - 1) _ (Or.inr (by omega))]
        rw [readLE_writeLE]
        have h256 : (256 : Nat) ^ 8 = 2 ^ 64 := by norm_num
        rw [h256, Nat.mod_eq_of_lt (by omega)]
        omega
    · have o := hInv.recs r hrL
      have hdisj := hInv.fldisj b hbmem r hrL
      have hiv := hdisj.intervals hbpos (by have := o.big; omega)
      have olo := o.lo
      have ohi := o.hi
      have obig := o.big
      refine ⟨o.lo, o.hi, o.big, ?_, ?_, ?_⟩
      · show readLE (writeLE (writeLE (writeLE st.mem b.addr 4 kMemMagicNum)
            (b.addr + 8) 8 (size + alignment + 1)) (p - 1) 1 (p - (b.addr + headerSize + 1)))
            (r.ptr - 1) 1 = (r.ptr - (r.addr + headerSize + 1)) % 256
        rw [readLE_writeLE_out 1 1 _ (r.ptr - 1) (p - 1) _ (by omega)]
        rw [readLE_writeLE_out 1 8 _ (r.ptr - 1) (b.addr + 8) _ (by omega)]
        rw [readLE_writeLE_out 1 4 _ (r.ptr - 1) b.addr _ (by omega)]
        exact o.shim
      · show readLE (writeLE (writeLE (writeLE st.mem b.addr 4 kMemMagicNum)
            (b.addr + 8) 8 (size + alignment + 1)) (p - 1) 1 (p - (b.addr + headerSize + 1)))
            r.addr 4 = kMemMagicNum
        rw [readLE_writeLE_out 4 1 _ r.addr (p - 1) _ (by omega)]
        rw [readLE_writeLE_out 4 8 _ r.addr (b.addr + 8) _ (by omega)]
        rw [readLE_writeLE_out 4 4 _ r.addr b.addr _ (by omega)]
        exact o.magic
      · show readLE (writeLE (writeLE (writeLE st.mem b.addr 4 kMemMagicNum)
            (b.addr + 8) 8 (size + alignment + 1)) (p - 1) 1 (p - (b.addr + headerSize + 1)))
            (r.addr + 8) 8 = r.req - headerSize
        rw [readLE_writeLE_out 8 1 _ (r.addr + 8) (p - 1) _ (by omega)]
        rw [readLE_writeLE_out 8 8 _ (r.addr + 8) (b.addr + 8) _ (by omega)]
        rw [readLE_writeLE_out 8 4 _ (r.addr + 8) b.addr _ (by omega)]
        exact o.hsize

/-- `Free` of an outstanding pointer succeeds (shim byte and magic are
found intact), reconstructs exactly the consumed span as a free node,
reinserts and coalesces it, and preserves the invariant with the ledger
entry removed. -/
theorem free_inv (st : Malloc) (L : List ARec) (r : ARec) (hInv : Inv st L)
    (hr : r ∈ L) (hsmall : r.ptr - (r.addr + headerSize + 1) < 256) :
    (Malloc.Free st r.ptr).1 = .ok () ∧
    Inv (Malloc.Free st r.ptr).2 (L.erase r) := by
  have o := hInv.recs r hr
  have olo := o.lo
  have ohi := o.hi
  have obig := o.big
  have hhs : headerSize = 16 := rfl
  have hmb : memBlockSize = 16 := rfl
  have hreg := hInv.aspan_in_region hr
  have hbound := hInv.bound
  have hreqlt : r.req < sizeTMod := by
    show r.req < 2 ^ 64
    omega
  have hcnt : readLE st.mem (r.ptr - 1) 1 = r.ptr - (r.addr + headerSize + 1) := by
    rw [o.shim]
    exact Nat.mod_eq_of_lt hsmall
  have hh : r.ptr - 1 - readLE st.mem (r.ptr - 1) 1 - headerSize = r.addr := by
    rw [hcnt]
    omega
  have hp0 : ¬r.ptr = 0 := by omega
  have hmg : readLE st.mem (r.ptr - 1 - readLE st.mem (r.ptr - 1) 1 - headerSize) 4
      = kMemMagicNum := by
    rw [hh]
    exact o.magic
  have heval := Free_eq_ok st r.ptr hp0 hmg
  have hstate : (Malloc.Free st r.ptr).2 =
      { st with
        freeList := MergeFreeBlocks (InsertFreeMemBlock ⟨r.addr, r.req⟩ st.freeList)
        mem := writeLE (writeLE st.mem r.addr 8 r.req) (r.addr + 8) 8 0 } := by
    rw [heval]
    show freeResultState st r.ptr = _
    simp only [freeResultState]
    rw [hcnt]
    rw [show r.ptr - 1 - (r.ptr - (r.addr + headerSize + 1)) - headerSize = r.addr from by omega]
    rw [o.hsize]
    rw [show r.req - headerSize + headerSize = r.req from by omega]
    rw [Nat.mod_eq_of_lt hreqlt]
  have hnodup := hInv.nodup
  have hsymm : Symmetric (fun r1 r2 : ARec => SpanDisj r1.addr r1.req r2.addr r2.req) :=
    fun a b hab => hab.symm'
  have hdisjr : ∀ x ∈ L, x ≠ r → SpanDisj r.addr r.req x.addr x.req := by
    intro x hx hne
    exact hInv.ldisj.forall hsymm hr hx (fun he => hne he.symm)
  have hdisj_fl : ∀ c ∈ st.freeList, SpanDisj r.addr r.req c.addr c.size := by
    intro c hc
    exact (hInv.fldisj c hc r hr).symm'
  have hnpos : 0 < r.req := by omega
  have hins_ord : Ordered (InsertFreeMemBlock ⟨r.addr, r.req⟩ st.freeList) := by
    refine insert_ordered _ st.freeList hInv.merged hnpos hInv.pos ?_
    intro c hc
    exact hdisj_fl c hc
  have hins_pos : ∀ c ∈ InsertFreeMemBlock ⟨r.addr, r.req⟩ st.freeList, 0 < c.size := by
    intro c hc
    rcases List.mem_cons.mp ((insert_perm _ st.freeList).mem_iff.mp hc) with hc | hc
    · rw [hc]
      exact hnpos
    · exact hInv.pos c hc
  obtain ⟨hmg2, hpos2⟩ :=
    merge_spec (InsertFreeMemBlock ⟨r.addr, r.req⟩ st.freeList) hins_ord hins_pos
  have hcovers2 : ∀ x,
      covers (MergeFreeBlocks (InsertFreeMemBlock ⟨r.addr, r.req⟩ st.freeList)) x
        ↔ (r.addr ≤ x ∧ x < r.addr + r.req) ∨ covers st.freeList x := by
    intro x
    rw [merge_covers, insert_covers]
  have hcoversL : ∀ x, coversA L x
      ↔ (r.addr ≤ x ∧ x < r.addr + r.req) ∨ coversA (L.erase r) x := by
    intro x
    rw [coversA_of_perm (List.perm_cons_erase hr), coversA_cons]
  have hmem_erase : ∀ x ∈ L.erase r, x ≠ r ∧ x ∈ L := by
    intro x hx
    exact (hnodup.mem_erase_iff).mp hx
  refine ⟨congrArg Prod.fst heval, ?_⟩
  rw [hstate]
  refine ⟨hInv.hsz, hInv.bound, hmg2, hpos2, ?_, ?_, ?_, ?_⟩
  · -- cover
    intro x
    show (st.mmap_start ≤ x ∧ x < st.mmap_start + st.region_size - memBlockSize)
      ↔ covers (MergeFreeBlocks (InsertFreeMemBlock ⟨r.addr, r.req⟩ st.freeList)) x
        ∨ coversA (L.erase r) x
    rw [hcovers2 x]
    constructor
    · intro hx
      rcases (hInv.cover x).mp hx with hc | hc
      · exact Or.inl (Or.inr hc)
      · rcases (hcoversL x).mp hc with hc | hc
        · exact Or.inl (Or.inl hc)
        · exact Or.inr hc
    · intro hx
      rcases hx with (hc | hc) | hc
      · exact (hInv.cover x).mpr (Or.inr ((hcoversL x).mpr (Or.inl hc)))
      · exact (hInv.cover x).mpr (Or.inl hc)
      · exact (hInv.cover x).mpr (Or.inr ((hcoversL x).mpr (Or.inr hc)))
  · -- pairwise disjoint ledger
    exact hInv.ldisj.sublist (List.erase_sublist r L)
  · -- free spans disjoint from ledger spans
    intro c hc rec hrec
    obtain ⟨hne, hrecL⟩ := hmem_erase rec hrec
    intro x hx
    have hcv : covers (MergeFreeBlocks (InsertFreeMemBlock ⟨r.addr, r.req⟩ st.freeList)) x :=
      ⟨c, hc, hx.1⟩
    rw [hcovers2 x] at hcv
    rcases hcv with hcv | hcv
    · exact hdisjr rec hrecL hne x ⟨hcv, hx.2⟩
    · obtain ⟨c', hc', hxc'⟩ := hcv
      exact hInv.fldisj c' hc' rec hrecL x ⟨hxc', hx.2⟩
  · -- per-record memory facts
    intro rec hrec
    obtain ⟨hne, hrecL⟩ := hmem_erase rec hrec
    have o' := hInv.recs rec hrecL
    have hiv := (hdisjr rec hrecL hne).intervals hnpos (by have := o'.big; omega)
    have o'lo := o'.lo
    have o'hi := o'.hi
    have o'big := o'.big
    refine ⟨o'.lo, o'.hi, o'.big, ?_, ?_, ?_⟩
    · show readLE (writeLE (writeLE st.mem r.addr 8 r.req) (r.addr + 8) 8 0)
        (rec.ptr - 1) 1 = (rec.ptr - (rec.addr + headerSize + 1)) % 256
      rw [readLE_writeLE_out 1 8 _ (rec.ptr - 1) (r.addr + 8) _ (by omega)]
      rw [readLE_writeLE_out 1 8 _ (rec.ptr - 1) r.addr _ (by omega)]
      exact o'.shim
    · show readLE (writeLE (writeLE st.mem r.addr 8 r.req) (r.addr + 8) 8 0)
        rec.addr 4 = kMemMagicNum
      rw [readLE_writeLE_out 4 8 _ rec.addr (r.addr + 8) _ (by omega)]
      rw [readLE_writeLE_out 4 8 _ rec.addr r.addr _ (by omega)]
      exact o'.magic
    · show readLE (writeLE (writeLE st.mem r.addr 8 r.req) (r.addr + 8) 8 0)
        (rec.addr + 8) 8 = rec.req - headerSize
      rw [readLE_writeLE_out 8 8 _ (rec.addr + 8) (r.addr + 8) _ (by omega)]
      rw [readLE_writeLE_out 8 8 _ (rec.addr + 8) r.addr _ (by omega)]
      exact o'.hsize

theorem Alloc_fields (m : Malloc) (size alignment : Nat) :
    (Malloc.Alloc m size alignment).2.mmap_start = m.mmap_start ∧
    (Malloc.Alloc m size alignment).2.region_size = m.region_size := by
  simp only [Malloc.Alloc]
  split
  · exact ⟨rfl, rfl⟩
  split
  · exact ⟨rfl, rfl⟩
  split
  · exact ⟨rfl, rfl⟩
  split
  · exact ⟨rfl, rfl⟩
  · exact ⟨rfl, rfl⟩

theorem Free_fields (m : Malloc) (p : Nat) :
    (Malloc.Free m p).2.mmap_start = m.mmap_start ∧
    (Malloc.Free m p).2.region_size = m.region_size := by
  simp only [Malloc.Free]
  split
  · exact ⟨rfl, rfl⟩
  split
  · exact ⟨rfl, rfl⟩
  · exact ⟨rfl, rfl⟩

/-! ### Reachable allocator states -/

theorem runAllocs_inv :
    ∀ (reqs : List (Nat × Nat)) (st : Malloc) (L : List ARec) (st1 : Malloc)
      (ptrs : List Nat),
    Inv st L →
    (∀ pr ∈ reqs, pr.2 ≤ 256 ∧ pr.1 + memBlockSize + pr.2 + 1 < sizeTMod) →
    (∀ r ∈ L, r.ptr - (r.addr + headerSize + 1) < 256) →
    runAllocs st reqs = some (st1, ptrs) →
    ∃ L1, Inv st1 L1 ∧ (L1.map ARec.ptr).Perm (ptrs ++ L.map ARec.ptr) ∧
      (∀ r ∈ L1, r.ptr - (r.addr + headerSize + 1) < 256) ∧
      st1.mmap_start = st.mmap_start ∧ st1.region_size = st.region_size := by
  intro reqs
  induction reqs with
  | nil =>
    intro st L st1 ptrs hInv hval hsmallL hrun
    have hrun' : some (st, ([] : List Nat)) = some (st1, ptrs) := hrun
    obtain ⟨h1, h2⟩ := Prod.mk.inj (Option.some.inj hrun')
    subst h1
    subst h2
    exact ⟨L, hInv, by simp, hsmallL, rfl, rfl⟩
  | cons hd rest ih =>
    obtain ⟨s, a⟩ := hd
    intro st L st1 ptrs hInv hval hsmallL hrun
    cases hA1 : (Malloc.Alloc st s a).1 with
    | error e =>
      exfalso
      have hA : Malloc.Alloc st s a = (.error e, (Malloc.Alloc st s a).2) := by
        rw [← hA1]
      have hrun' : runAllocs st ((s, a) :: rest) = none := by
        show (match Malloc.Alloc st s a with
          | (.ok (some p), m') =>
            (match runAllocs m' rest with
             | some (m2, ps) => some (m2, p :: ps)
             | none => none)
          | _ => none) = none
        rw [hA]
      rw [hrun'] at hrun
      exact Option.noConfusion hrun
    | ok o =>
      cases o with
      | none =>
        exfalso
        have hA : Malloc.Alloc st s a = (.ok none, (Malloc.Alloc st s a).2) := by
          rw [← hA1]
        have hrun' : runAllocs st ((s, a) :: rest) = none := by
          show (match Malloc.Alloc st s a with
            | (.ok (some p), m') =>
              (match runAllocs m' rest with
               | some (m2, ps) => some (m2, p :: ps)
               | none => none)
            | _ => none) = none
          rw [hA]
        rw [hrun'] at hrun
        exact Option.noConfusion hrun
      | some p =>
        have hA : Malloc.Alloc st s a = (.ok (some p), (Malloc.Alloc st s a).2) := by
          rw [← hA1]
        have hrun' : (match runAllocs (Malloc.Alloc st s a).2 rest with
            | some (m2, ps) => some (m2, p :: ps)
            | none => none) = some (st1, ptrs) := by
          rw [show (match runAllocs (Malloc.Alloc st s a).2 rest with
              | some (m2, ps) => some (m2, p :: ps)
              | none => none)
            = runAllocs st ((s, a) :: rest) from by
              show _ = (match Malloc.Alloc st s a with
                | (.ok (some p), m') =>
                  (match runAllocs m' rest with
                   | some (m2, ps) => some (m2, p :: ps)
                   | none => none)
                | _ => none)
              rw [hA]]
          exact hrun
        cases hR : runAllocs (Malloc.Alloc st s a).2 rest with
        | none =>
          rw [hR] at hrun'
          exact Option.noConfusion hrun'
        | some pr2 =>
          obtain ⟨st2, ps⟩ := pr2
          rw [hR] at hrun'
          have hrun'' : some (st2, p :: ps) = some (st1, ptrs) := hrun'
          obtain ⟨h1, h2⟩ := Prod.mk.inj (Option.some.inj hrun'')
          subst h1
          subst h2
          -- the first-fit node exists because the call succeeded
          cases hsp : splitFirstFit (s + memBlockSize + a + 1) st.freeList with
          | none =>
            exfalso
            have hs : s ≠ 0 := (Alloc_some_spec st s a p hA1).1
            have hpow := (Alloc_some_spec st s a p hA1).2.1
            have hnot : ¬(a = 0 ∨ IsPowerOfTwo a = false) := by
              rintro (h0 | hf)
              · have := IsPowerOfTwo_pos a hpow
                omega
              · rw [hpow] at hf
                exact Bool.noConfusion hf
            have hnw := (hval (s, a) (List.mem_cons_self _ _)).2
            have hsp' : splitFirstFit ((s + memBlockSize + a + 1) % sizeTMod) st.freeList
                = none := by
              rw [Nat.mod_eq_of_lt hnw]
              exact hsp
            rw [congrArg Prod.fst (Alloc_eq_noFit st s a hs hnot hsp')] at hA1
            exact Option.noConfusion (Except.ok.inj hA1)
          | some prf =>
            obtain ⟨addr, fl'⟩ := prf
            have ha256 := (hval (s, a) (List.mem_cons_self _ _)).1
            have hnw := (hval (s, a) (List.mem_cons_self _ _)).2
            have hInv' := alloc_inv st L s a p addr fl' hInv hnw hA1 hsp
            have hs := (Alloc_some_spec st s a p hA1).1
            have hpow := (Alloc_some_spec st s a p hA1).2.1
            have hapos := IsPowerOfTwo_pos a hpow
            have hpeq : p = alignUp (addr + headerSize + 1) a := by
              have hclean := (Alloc_state_clean st s a addr
                (alignUp (addr + headerSize + 1) a) fl' hs hpow hnw hsp rfl).1
              rw [hclean] at hA1
              exact (Option.some.inj (Except.ok.inj hA1)).symm
            have hsmall_new : p - (addr + headerSize + 1) < 256 := by
              have hul := alignUp_lt (addr + headerSize + 1) a hapos
              rw [hpeq]
              omega
            have hsmallL' : ∀ r ∈ (⟨addr, s + memBlockSize + a + 1, p⟩ : ARec) :: L,
                r.ptr - (r.addr + headerSize + 1) < 256 := by
              intro r hrm
              rcases List.mem_cons.mp hrm with h' | h'
              · rw [h']
                exact hsmall_new
              · exact hsmallL r h'
            obtain ⟨L1, hI1, hperm1, hsm1, hf1, hf2⟩ := ih (Malloc.Alloc st s a).2
              (⟨addr, s + memBlockSize + a + 1, p⟩ :: L) st2 ps hInv'
              (fun pr hpr => hval pr (List.mem_cons.mpr (Or.inr hpr))) hsmallL' hR
            refine ⟨L1, hI1, ?_, hsm1, ?_, ?_⟩
            · refine hperm1.trans ?_
              show (ps ++ p :: L.map ARec.ptr).Perm ((p :: ps) ++ L.map ARec.ptr)
              exact List.perm_middle
            · rw [hf1]
              exact (Alloc_fields st s a).1
            · rw [hf2]
              exact (Alloc_fields st s a).2

theorem runFrees_inv :
    ∀ (order : List Nat) (st : Malloc) (L : List ARec),
    Inv st L → (∀ r ∈ L, r.ptr - (r.addr + headerSize + 1) < 256) →
    order.Perm (L.map ARec.ptr) →
    ∃ st2, runFrees st order = some st2 ∧ Inv st2 [] ∧
      st2.mmap_start = st.mmap_start ∧ st2.region_size = st.region_size := by
  intro order
  induction order with
  | nil =>
    intro st L hInv hsmallL hperm
    have hL : L = [] := List.map_eq_nil_iff.mp hperm.symm.eq_nil
    subst hL
    exact ⟨st, rfl, hInv, rfl, rfl⟩
  | cons p rest ih =>
    intro st L hInv hsmallL hperm
    have hpmem : p ∈ L.map ARec.ptr := hperm.subset (List.mem_cons_self _ _)
    obtain ⟨r, hrL, hrp⟩ := List.mem_map.mp hpmem
    obtain ⟨hok, hInv'⟩ := free_inv st L r hInv hrL (hsmallL r hrL)
    have hfr : Malloc.Free st p = (.ok (), (Malloc.Free st r.ptr).2) := by
      rw [← hrp, ← hok]
    have hrun1 : runFrees st (p :: rest) = runFrees (Malloc.Free st r.ptr).2 rest := by
      show (match Malloc.Free st p with
        | (.ok _, m') => runFrees m' rest
        | _ => none) = runFrees (Malloc.Free st r.ptr).2 rest
      rw [hfr]
    have hLperm : (L.map ARec.ptr).Perm (p :: (L.map ARec.ptr).erase p) :=
      List.perm_cons_erase hpmem
    have hrest : rest.Perm ((L.erase r).map ARec.ptr) := by
      rw [map_erase_of_nodup ARec.ptr L r hInv.nodup_ptrs hrL, hrp]
      exact (hperm.trans hLperm).cons_inv
    obtain ⟨st2, hrun2, hI2, hf1, hf2⟩ := ih (Malloc.Free st r.ptr).2 (L.erase r) hInv'
      (fun x hx => hsmallL x (List.mem_of_mem_erase hx)) hrest
    refine ⟨st2, by rw [hrun1]; exact hrun2, hI2, ?_, ?_⟩
    · rw [hf1]
      exact (Free_fields st r.ptr).1
    · rw [hf2]
      exact (Free_fields st r.ptr).2

/-- C1 (amended with two preconditions on every request: `alignment ≤ 256`,
and `size + sizeof(MemBlock) + alignment + 1` does not overflow
`std::size_t`): starting from a fresh allocator, for every sequence of
successful `Alloc` calls, freeing all the returned pointers in any order
succeeds and returns the free list to a single node at the region base of
size `region_size − sizeof(MemBlock)`. -/
theorem c1_round_trip (P n base : Nat) (reqs : List (Nat × Nat))
    (order ptrs : List Nat) (st1 : Malloc)
    (hn : 0 < n) (hP : headerSize + 1 ≤ P)
    (hbound : base + roundRegion P n < 2 ^ 64)
    (hreq : ∀ pr ∈ reqs, pr.2 ≤ 256 ∧ pr.1 + memBlockSize + pr.2 + 1 < sizeTMod)
    (hrun : runAllocs (Malloc.init P n base) reqs = some (st1, ptrs))
    (hperm : order.Perm ptrs) :
    ∃ st2, runFrees st1 order = some st2 ∧
      st2.freeList = [⟨base, roundRegion P n - memBlockSize⟩] := by
  have h0 := Inv_init P n base hn hP hbound
  obtain ⟨L1, hInv1, hp1, hsm1, hm1, hr1⟩ :=
    runAllocs_inv reqs (Malloc.init P n base) [] st1 ptrs h0 hreq
      (fun r hr => absurd hr (List.not_mem_nil r)) hrun
  have hperm' : order.Perm (L1.map ARec.ptr) := by
    refine hperm.trans ?_
    have : (L1.map ARec.ptr).Perm ptrs := by
      have := hp1
      rw [show (([] : List ARec).map ARec.ptr) = [] from rfl, List.append_nil] at this
      exact this
    exact this.symm
  obtain ⟨st2, hrunF, hInv2, hm2, hr2⟩ := runFrees_inv order st1 L1 hInv1 hsm1 hperm'
  refine ⟨st2, hrunF, ?_⟩
  have hcol := Inv_empty_collapse st2 hInv2
  rw [hcol, hm2, hr2, hm1, hr1]
  rfl

/-- Witness for `c1_round_trip`: one `Alloc(101, 8)` on a fresh 4096-byte
region based at 65536 returns 65560; freeing it restores the single
4080-byte node at the base. -/
theorem c1_round_trip_witness :
    ∃ st2, runFrees (Malloc.Alloc (Malloc.init 4096 4096 65536) 101 8).2 [65560]
        = some st2 ∧
      st2.freeList = [⟨65536, roundRegion 4096 4096 - memBlockSize⟩] :=
  c1_round_trip 4096 4096 65536 [(101, 8)] [65560] [65560]
    (Malloc.Alloc (Malloc.init 4096 4096 65536) 101 8).2
    (by decide) (by decide) (by decide) (by decide)
    (by rfl) (List.Perm.refl _)

/-- The alignment-512 round-trip scenario: one successful `Alloc`, then a
`Free` of each returned pointer, observed through the final free list
(`none` when one of the calls raises). -/
def c1CounterResult : Option (List MemBlock) :=
  match runAllocs (Malloc.init 4096 4096 65536) [(100, 512)] with
  | some (m1, ps) =>
    match runFrees m1 ps with
    | some m2 => some m2.freeList
    | none => none
  | none => none

/-- C1 counterexample, two independent failing families of successful
`Alloc` sequences.  (i) With the accepted power-of-two alignment 512 the
`Alloc` phase succeeds, but freeing the returned pointer raises `bad magic`
(the truncated shim byte mislocates the header), so the free list does not
return to the single base node.  (ii) With alignment 8 ≤ 256 and size
`2^64 − 25`, `req_space` wraps to 0 in `std::size_t` and the `Alloc` still
returns a pointer (65560) carved from a 4080-byte node; the source's header
store then destroys the live free node record it overlaps, and the `Free` of
that pointer never terminates inside the source's `MergeFreeBlocks` (the
reconstructed node's size wraps to 0 and the node is its own successor).
Together these force both restrictions of the amendment. -/
theorem c1_counterexample :
    (runAllocs (Malloc.init 4096 4096 65536) [(100, 512)]).isSome = true ∧
    IsPowerOfTwo 512 = true ∧
    c1CounterResult = none ∧
    ((2 ^ 64 - 25) + memBlockSize + 8 + 1) % sizeTMod = 0 ∧
    (Malloc.Alloc (Malloc.init 4096 4096 65536) (2 ^ 64 - 25) 8).1 = .ok (some 65560) := by
  refine ⟨?_, ?_, ?_, ?_, ?_⟩ <;> decide

end MallocSpec
